import Mathlib

/-!
Verification of the option-code generator `mkoptions.py` (src/options/mkoptions.py).

The script compiles declarative option specifications (one document per module)
into generated C++ artifacts.  This file gives a shallow embedding of the
script's data model and algorithms:

* Python strings are Lean `String`s (a `String` here is a structure over
  `List Char`, so every operation below is executable and kernel-reducible);
* Python `None`-able string attributes are `Option String`, and Python
  truthiness of such a value (`if option.long:`) is the function `tr`;
* the process-global caches are explicit state threaded through the functions;
* `sys.exit`/uncaught Python exceptions are the `PyError` type, and fallible
  functions return `Except PyError _`;
* the textual template substitution is out of scope of the specification
  ("an opaque rendering collaborator"), so a generated artifact is embedded as
  the structured sequence of filled-in template instantiations (`Tpl`, `Snip`)
  rather than the literal C++ text; byte-identity of rendered files
  corresponds to equality of these structures, since the rendering of each
  instantiation is a fixed injective function of its arguments;
* the destination directory is an explicit association of file name to
  artifact, and `write_file` mirrors the script's compare-before-write logic.
-/

namespace Mkopt

/-! ### Python-value helpers -/

/-- Truthiness of a Python `None`-or-string value: `None` and `""` are falsy. -/
def tr : Option String → Bool
  | none => false
  | some s => s != ""

/-- `"{}".format(v)` for a `None`-or-string value: `None` prints as "None". -/
def fmtOpt : Option String → String
  | none => "None"
  | some s => s

/-- `list.split(c)` on characters (Python `str.split` with a one-char separator:
the result always has at least one piece, pieces may be empty). -/
def splitOnChar (c : Char) : List Char → List (List Char)
  | [] => [[]]
  | x :: xs =>
    if x = c then [] :: splitOnChar c xs
    else
      match splitOnChar c xs with
      | [] => [[x]]
      | g :: gs => (x :: g) :: gs

/-- Python `s.split('=')`. -/
def split_eq (s : String) : List String :=
  (splitOnChar '=' s.data).map String.mk

/-- Python `s.startswith('--')`. -/
def starts_dashdash (s : String) : Bool :=
  match s.data with
  | '-' :: '-' :: _ => true
  | _ => false

/-- Whether `needle` is an initial segment of `hay`. -/
def chars_lead : List Char → List Char → Bool
  | [], _ => true
  | _ :: _, [] => false
  | n :: ns, h :: hs => n = h && chars_lead ns hs

/-- Whether `needle` occurs contiguously inside `hay`. -/
def chars_within (needle : List Char) : List Char → Bool
  | [] => needle.isEmpty
  | h :: hs => chars_lead needle (h :: hs) || chars_within needle hs

/-- Python `needle in haystack` on strings (substring test). -/
def str_in (needle haystack : String) : Bool :=
  chars_within needle.data haystack.data

/-! ### Error model

`PyError.sysExit msg` is `sys.exit(msg)` (exit status 1, `msg` printed as a
single line on stderr).  `PyError.unboundLocal v` is a Python
`UnboundLocalError` escaping to the top level (exit status 1 with a
multi-line traceback, no formatted diagnostic).  `PyError.assertFail` is a
failing `assert` statement (`AssertionError` traceback).  `PyError.typeError`
is an uncaught `TypeError` (raised by `sorted` when a `None` sort key is
compared with another key). -/
inductive PyError where
  | sysExit (msg : String)
  | unboundLocal (var : String)
  | assertFail (what : String)
  | typeError
deriving DecidableEq, Repr

/-- `die(msg)` = `sys.exit('[error] {}'.format(msg))` (mkoptions.py line 272). -/
def die (msg : String) : PyError :=
  PyError.sysExit ("[error] " ++ msg)

/-! ### Data model

`MkOption` is the script's `Option` class after `Option.__init__` has merged
the document's attribute dict over the defaults (the class is called
`MkOption` here because `Option` is taken in Lean).  A string attribute that
the document does not set (or sets to a falsy value) is `none`; `read_only`
defaults to `False` and `alternate` to `True`; `includes`/`predicates`
default to `[]`; a mode is an ordered association of internal key to
(display name, optional help), `[]` when the option has no mode. -/

structure ModeValue where
  name : String
  help : Option String
deriving DecidableEq, Repr

structure MkOption where
  category : String
  type : String
  name : Option String
  help : Option String
  help_mode : Option String
  smt_name : Option String
  short : Option String
  long : Option String
  default : Option String
  includes : List String
  handler : Option String
  predicates : List String
  read_only : Bool
  alternate : Bool
  mode : List (String × ModeValue)
  filename : Option String
deriving DecidableEq, Repr

/-- A convenient constructor giving every optional attribute its
`Option.__init__` default. -/
def baseOption : MkOption where
  category := "regular"
  type := "bool"
  name := none
  help := none
  help_mode := none
  smt_name := none
  short := none
  long := none
  default := none
  includes := []
  handler := none
  predicates := []
  read_only := false
  alternate := true
  mode := []
  filename := none

/-- The script's `Module` class: `id`, `name`, `header` (required document
attributes) and the option list. -/
structure Module where
  id : String
  name : String
  header : String
  options : List MkOption
deriving DecidableEq, Repr

/-! ### Diagnostics (mkoptions.py lines 272-282) -/

/-- `perr(filename, msg, option=None)`.  NOTE (faithful to the source): when
called without an `option`, the local `msg_suffix` is never assigned, so the
`die(...)` line raises `UnboundLocalError` instead of exiting with the
formatted message. -/
def perr (filename msg : String) (opt : Option MkOption) : PyError :=
  match opt with
  | some o =>
    let msg_suffix :=
      if tr o.name then "option '" ++ o.name.getD "" ++ "' "
      else "option '" ++ fmtOpt o.long ++ "' "
    die ("parse error in " ++ filename ++ ": " ++ msg ++ msg_suffix)
  | none => PyError.unboundLocal "msg_suffix"

/-! ### Long-option helpers (mkoptions.py lines 325-350) -/

/-- `long_get_option(name)`: `name.split('=')[0]`. -/
def long_get_option (name : String) : String :=
  (split_eq name).headD ""

/-- `get_smt_name(option)`.  The source asserts `smt_name or long`; both call
sites guard this, so the embedding is total with that guard's semantics. -/
def get_smt_name (o : MkOption) : String :=
  if tr o.smt_name then o.smt_name.getD "" else long_get_option (o.long.getD "")

def SUPPORTED_CTYPES : List String :=
  ["int", "unsigned", "unsigned long", "long", "float", "double"]

/-- Matcher for the regex `u?int[0-9]+_t` anchored at the start (Python
`re.match` only anchors on the left), after an optional leading 'u'. -/
def int_t_pat : List Char → Bool
  | 'i' :: 'n' :: 't' :: rest =>
    let ds := rest.takeWhile Char.isDigit
    !ds.isEmpty &&
      (match rest.drop ds.length with
       | '_' :: 't' :: _ => true
       | _ => false)
  | _ => false

/-- `is_numeric_cpp_type(ctype)`. -/
def is_numeric_cpp_type (ctype : String) : Bool :=
  SUPPORTED_CTYPES.contains ctype ||
    (match ctype.data with
     | 'u' :: rest => int_t_pat rest
     | l => int_t_pat l)

/-- `format_include(include)`. -/
def format_include (inc : String) : String :=
  if inc.data.contains '<' then "#include " ++ inc
  else "#include \"" ++ inc ++ "\""

/-! ### Help label formatting (mkoptions.py lines 362-381) -/

/-- `help_format_options(short_name, long_name)`: the label printed for one
option in the --help text.  NOTE: the long form is appended first, then the
short form, joined by " | ". -/
def help_format_options (short_name long_name : Option String) : String :=
  let opts : List String :=
    if tr long_name then ["--" ++ long_name.getD ""] else []
  let arg : Option String :=
    if tr long_name then (split_eq (long_name.getD "")).get? 1 else none
  let opts :=
    if tr short_name then
      if tr arg then opts ++ ["-" ++ short_name.getD "" ++ " " ++ arg.getD ""]
      else opts ++ ["-" ++ short_name.getD ""]
    else opts
  String.intercalate " | " opts

/-! ### The uniqueness registry (mkoptions.py lines 70-78, 878-907)

The script declares five caches: `g_module_id_cache`, `g_long_cache`,
`g_short_cache`, `g_smt_cache` and `g_name_cache`.  Only `g_long_cache` is
ever written or read (by `check_long` below); the other four are never
touched again after their declaration.  A cache maps an inserted value to
the file that first declared it; it is embedded as an association list. -/

abbrev Cache := List (String × String)

def cache_find : Cache → String → Option String
  | [], _ => none
  | (k, v) :: rest, key => if k = key then some v else cache_find rest key

/-- `check_unique(filename, value, cache)`.  On a collision it calls
`perr` WITHOUT an option argument, which (see `perr`) raises
`UnboundLocalError` rather than printing the formatted message. -/
def check_unique (filename value : String) (cache : Cache) :
    Except PyError Cache :=
  match cache_find cache value with
  | some prior =>
    .error (perr filename
      ("'" ++ value ++ "' already defined in '" ++ prior ++ "'") none)
  | none => .ok (cache ++ [(value, filename)])

/-- One character of the long-option regex class `[0-9a-zA-Z\-=]`. -/
def long_re_char (c : Char) : Bool :=
  c.isDigit || c.isAlpha || c = '-' || c = '='

/-- The anchored regex `^[0-9a-zA-Z\-=]+$`. -/
def matches_long_re (s : String) : Bool :=
  !s.data.isEmpty && s.data.all long_re_char

/-- `check_long(filename, option, long_name, ctype=None)`.  For a `bool`
option the negated `no-` spelling is inserted into the long cache as well,
regardless of the option's `alternate` flag. -/
def check_long (filename : String) (o : MkOption) (long_name : Option String)
    (ctype : Option String) (cache : Cache) : Except PyError Cache :=
  match long_name with
  | none => .ok cache
  | some ln =>
    if starts_dashdash ln then
      .error (perr filename "remove -- prefix from long" (some o))
    else if !matches_long_re ln then
      .error (perr filename
        ("long '" ++ ln ++ "' does not match regex criteria '^[0-9a-zA-Z\\-=]+$'")
        (some o))
    else
      match check_unique filename (long_get_option ln) cache with
      | .error e => .error e
      | .ok cache1 =>
        if ctype = some "bool" then
          check_unique filename ("no-" ++ long_get_option ln) cache1
        else .ok cache1

/-! ### Parsing one module document (mkoptions.py lines 910-955)

`parse_module` receives the already-loaded document (raw structured-document
parsing is out of scope of the specification; `check_attribs`, which polices
the raw attribute-key set before the `Module`/`Option` objects exist, is not
needed by any claim and is not modelled).  The per-option consistency checks
of `parse_module` run here, in source order. -/

/-- The consistency checks applied to one option inside `parse_module`. -/
def parse_option_check (filename : String) (o : MkOption) : Except PyError Unit :=
  if !o.mode.isEmpty && !tr o.help_mode then
    .error (perr filename "defines modes but no help_mode" (some o))
  else if !o.mode.isEmpty && tr o.handler then
    .error (perr filename "defines modes and a handler" (some o))
  else if !o.mode.isEmpty && tr o.default
      && !((o.mode.map Prod.fst).contains (o.default.getD "")) then
    .error (perr filename
      ("invalid default value '" ++ o.default.getD "" ++ "'") (some o))
  else if tr o.short && !tr o.long then
    .error (perr filename
      ("short option '" ++ o.short.getD "" ++ "' specified but no long option")
      (some o))
  else if o.type == "bool" && tr o.handler then
    .error (perr filename "defining handlers for bool options is not allowed"
      (some o))
  else if o.category != "undocumented" && !tr o.help then
    .error (perr filename
      ("help text required for " ++ o.category ++ " options") (some o))
  else .ok ()

def parse_options_loop (filename : String) :
    List MkOption → Except PyError (List MkOption)
  | [] => .ok []
  | o :: rest =>
    match parse_option_check filename o with
    | .error e => .error e
    | .ok _ =>
      match parse_options_loop filename rest with
      | .error e => .error e
      | .ok os => .ok ({ o with filename := some filename } :: os)

/-- `parse_module(filename, module)` on the already-structured document. -/
def parse_module (filename : String) (m : Module) : Except PyError Module :=
  match parse_options_loop filename m.options with
  | .error e => .error e
  | .ok os => .ok { m with options := os }

/-! ### The main parse loop (mkoptions.py lines 993-1008)

After parsing each document, every option's long spelling is validated and
inserted into the process-global `g_long_cache` (with the `no-` reservation
for `bool` options); `g_long_to_opt` and `g_long_arguments` are also kept,
although nothing in the script ever reads them back. -/

def assoc_find {α : Type} : List (String × α) → String → Option α
  | [], _ => none
  | (k, v) :: rest, key => if k = key then some v else assoc_find rest key

/-- Python dict assignment `d[k] = v` (overwrite in place, else append). -/
def assoc_put {α : Type} : List (String × α) → String → α → List (String × α)
  | [], k, v => [(k, v)]
  | (k', v') :: rest, k, v =>
    if k' = k then (k, v) :: rest else (k', v') :: assoc_put rest k v

/-- Python `set.add`. -/
def set_add (l : List String) (x : String) : List String :=
  if l.contains x then l else l ++ [x]

structure ParseSt where
  g_long_to_opt : List (String × MkOption)
  g_long_cache : Cache
  g_long_arguments : List String
deriving DecidableEq, Repr

def ParseSt.init : ParseSt := ⟨[], [], []⟩

def parse_stage_options (filename : String) :
    List MkOption → ParseSt → Except PyError ParseSt
  | [], st => .ok st
  | o :: rest, st =>
    match check_long filename o o.long (some o.type) st.g_long_cache with
    | .error e => .error e
    | .ok cache1 =>
      let st := { st with g_long_cache := cache1 }
      let st :=
        if tr o.long then
          let base := long_get_option (o.long.getD "")
          let st := { st with g_long_to_opt := assoc_put st.g_long_to_opt base o }
          if !(["bool", "void"].contains o.type) then
            { st with g_long_arguments := set_add st.g_long_arguments base }
          else st
        else st
      parse_stage_options filename rest st

/-- The loop of `mkoptions_main` over the input documents: parse each, then
validate and register its long options. -/
def parse_stage :
    List (String × Module) → ParseSt → Except PyError (List Module × ParseSt)
  | [], st => .ok ([], st)
  | (filename, raw) :: rest, st =>
    match parse_module filename raw with
    | .error e => .error e
    | .ok m =>
      match parse_stage_options filename m.options st with
      | .error e => .error e
      | .ok st1 =>
        match parse_stage rest st1 with
        | .error e => .error e
        | .ok (ms, st2) => .ok (m :: ms, st2)

/-! ### Traversal order (mkoptions.py lines 446-447 and 634-635)

Both the per-module pass and the global pass traverse
`sorted(module.options, key=lambda x: x.long if x.long else x.name)`.
The Python key of an option is a `str`, or `None` when the option has
neither a truthy `long` nor a truthy `name` (`py_sort_key`).  Python's
`sorted` (stable Timsort) raises `TypeError` the moment a `None` key is
compared with another key; when the list has at least two elements every
element is compared with a neighbour, so the call raises exactly when the
list has length ≥ 2 and some key is `None`, and otherwise returns the
stable sort by key.  A stable insertion sort whose comparison fails on a
`None` operand (`py_sorted` below) raises under exactly the same condition
and returns the same stable order, so it is the embedding of the `sorted`
call. -/

/-- The Python sort key `x.long if x.long else x.name`: a string, or `None`
(`none`) for an option with neither spelling. -/
def py_sort_key (o : MkOption) : Option String :=
  if tr o.long then o.long else o.name

/-- The comparison order used on the success path: for options whose Python
key is a string, `sort_key` is that string (`none` is mapped to `""`, but
`py_sorted` raises before such a key is ever compared). -/
def sort_key (o : MkOption) : String :=
  if tr o.long then o.long.getD "" else o.name.getD ""

/-- Python's `<=` on strings: lexicographic comparison by code point. -/
def chars_le : List Char → List Char → Bool
  | [], _ => true
  | _ :: _, [] => false
  | a :: as, b :: bs => if a < b then true else if b < a then false else chars_le as bs

def str_le (a b : String) : Bool := chars_le a.data b.data

def opt_le (a b : MkOption) : Prop := str_le (sort_key a) (sort_key b) = true

instance : DecidableRel opt_le := fun a b =>
  inferInstanceAs (Decidable (str_le (sort_key a) (sort_key b) = true))

theorem chars_le_total : ∀ as bs : List Char,
    chars_le as bs = true ∨ chars_le bs as = true := by
  intro as
  induction as with
  | nil => intro bs; left; rfl
  | cons a as ih =>
    intro bs
    cases bs with
    | nil => right; rfl
    | cons b bs =>
      by_cases hab : a < b
      · left; simp [chars_le, hab]
      · by_cases hba : b < a
        · right; simp [chars_le, hba]
        · cases ih bs with
          | inl h => left; simp [chars_le, hab, hba, h]
          | inr h => right; simp [chars_le, hab, hba, h]

theorem chars_le_trans : ∀ as bs cs : List Char,
    chars_le as bs = true → chars_le bs cs = true → chars_le as cs = true := by
  intro as
  induction as with
  | nil => intro bs cs _ _; rfl
  | cons a as ih =>
    intro bs cs h1 h2
    cases bs with
    | nil => simp [chars_le] at h1
    | cons b bs =>
      cases cs with
      | nil => simp [chars_le] at h2
      | cons c cs =>
        by_cases hab : a < b
        · by_cases hbc : b < c
          · simp [chars_le, lt_trans hab hbc]
          · by_cases hcb : c < b
            · simp [chars_le, hbc, hcb] at h2
            · have hbceq : b = c := le_antisymm (not_lt.mp hcb) (not_lt.mp hbc)
              subst hbceq
              simp [chars_le, hab]
        · by_cases hba : b < a
          · simp [chars_le, hab, hba] at h1
          · have habeq : a = b := le_antisymm (not_lt.mp hba) (not_lt.mp hab)
            subst habeq
            have h1x : chars_le as bs = true := by
              simpa [chars_le, lt_irrefl] using h1
            by_cases hac : a < c
            · simp [chars_le, hac]
            · by_cases hca : c < a
              · simp [chars_le, hac, hca] at h2
              · have h2x : chars_le bs cs = true := by
                  simpa [chars_le, hac, hca] using h2
                simp [chars_le, hac, hca, ih bs cs h1x h2x]

theorem chars_le_antisymm : ∀ as bs : List Char,
    chars_le as bs = true → chars_le bs as = true → as = bs := by
  intro as
  induction as with
  | nil =>
    intro bs h1 h2
    cases bs with
    | nil => rfl
    | cons b bs => simp [chars_le] at h2
  | cons a as ih =>
    intro bs h1 h2
    cases bs with
    | nil => simp [chars_le] at h1
    | cons b bs =>
      by_cases hab : a < b
      · simp [chars_le, hab, lt_asymm hab] at h2
      · by_cases hba : b < a
        · simp [chars_le, hab, hba] at h1
        · have habeq : a = b := le_antisymm (not_lt.mp hba) (not_lt.mp hab)
          subst habeq
          have h1x : chars_le as bs = true := by
            simpa [chars_le, lt_irrefl] using h1
          have h2x : chars_le bs as = true := by
            simpa [chars_le, lt_irrefl] using h2
          rw [ih bs h1x h2x]

theorem str_le_antisymm (x y : String) (h1 : str_le x y = true)
    (h2 : str_le y x = true) : x = y := by
  cases x with
  | mk dx =>
    cases y with
    | mk dy =>
      have : dx = dy := chars_le_antisymm dx dy h1 h2
      rw [this]

theorem opt_le_trans {a b c : MkOption} (h1 : opt_le a b) (h2 : opt_le b c) :
    opt_le a c :=
  chars_le_trans _ _ _ h1 h2

instance : IsTotal MkOption opt_le :=
  ⟨fun a b => chars_le_total (sort_key a).data (sort_key b).data⟩

instance : IsTrans MkOption opt_le := ⟨fun _ _ _ h h2 => opt_le_trans h h2⟩

/-- The traversal order of a module's options on the success path. -/
def sorted_options (m : Module) : List MkOption :=
  List.insertionSort opt_le m.options

/-- One Python key comparison: defined when both keys are strings, a
`TypeError` when either operand is `None`. -/
def py_le (a b : MkOption) : Except PyError Bool :=
  match py_sort_key a, py_sort_key b with
  | some x, some y => .ok (str_le x y)
  | _, _ => .error PyError.typeError

/-- Stable insertion of one element using the fallible Python comparison. -/
def py_orderedInsert (a : MkOption) : List MkOption → Except PyError (List MkOption)
  | [] => .ok [a]
  | b :: l =>
    match py_le a b with
    | .error e => .error e
    | .ok true => .ok (a :: b :: l)
    | .ok false =>
      match py_orderedInsert a l with
      | .error e => .error e
      | .ok l2 => .ok (b :: l2)

/-- `sorted(options, key=lambda x: x.long if x.long else x.name)`: the
stable sort by Python key, raising `TypeError` exactly when a `None` key
meets a comparison (see `py_sorted_spec`). -/
def py_sorted : List MkOption → Except PyError (List MkOption)
  | [] => .ok []
  | a :: l =>
    match py_sorted l with
    | .error e => .error e
    | .ok s => py_orderedInsert a s

/-! ### Per-module code generation (mkoptions.py lines 425-552)

The per-option emissions into the module header/implementation are the
constructors of `Tpl`; each constructor is one `TPL_*` template of the
source filled with the listed arguments (`TPL_OPTION_STRUCT_RO` and
`TPL_OPTION_STRUCT_RW` are textually identical in the source, so one
constructor covers both). -/

structure ModeHelp where
  help_mode : String
  long : String
  entries : List (String × Bool × Option String)
deriving DecidableEq, Repr

/-- `help_mode_format(option)` (lines 401-422): the structured content of the
per-mode help block — the wrapped `help_mode` text, the base long spelling,
and per mode value its display name, whether it is marked `(default)`
(`value == option.default and attrib['name'] != "default"`), and its help. -/
def help_mode_format (o : MkOption) : ModeHelp :=
  { help_mode := fmtOpt o.help_mode
    long := long_get_option (o.long.getD "")
    entries := o.mode.map (fun p =>
      (p.2.name, o.default == some p.1 && p.2.name != "default", p.2.help)) }

inductive Tpl where
  | holderDefine (id : String)
  | holderAttr (name : String)
  | holderAttrDef (name dflt : String)
  | optionStruct (name ty long_name : String)
  | declSet (name : String)
  | declOpBracket (name : String)
  | declWasSetByUser (name : String)
  | implOpPar (name : String)
  | implSet (name : String)
  | implOpBracket (name : String)
  | implWasSetByUser (name : String)
  | defOption (name : String)
  | modeEnum (ty : String) (values : List String)
  | modeFuncDecl (ty : String)
  | modeFuncImpl (ty : String) (values : List String)
  | modeHandlerDecl (ty : String)
  | modeHandlerImpl (ty : String) (cases : List (String × String))
      (help : ModeHelp) (long : String)
deriving DecidableEq, Repr

/-- The accumulating lists of `codegen_module`. -/
structure MCore where
  includes : List String
  holder_specs : List Tpl
  decls : List Tpl
  specs : List Tpl
  inls : List Tpl
  mode_decl : List Tpl
  mode_impl : List Tpl
  accs : List Tpl
  defs : List Tpl
deriving DecidableEq, Repr

def MCore.init (mid : String) : MCore :=
  { includes := [], holder_specs := [Tpl.holderDefine mid], decls := []
    specs := [], inls := [], mode_decl := [], mode_impl := []
    accs := [], defs := [] }

/-- The body of the per-option loop of `codegen_module`.  An option whose
`name` is `None` is skipped outright (`continue`).  The argument-marker
consistency check (lines 477-486) runs inside this loop, after the
declaration emissions, and `die`s on violation. -/
def codegen_option_core (mid : String) (o : MkOption) (st : MCore) :
    Except PyError MCore :=
  match o.name with
  | none => .ok st
  | some name =>
    let st := { st with includes := st.includes ++ o.includes.map format_include }
    let st :=
      if tr o.default then
        let dflt := o.default.getD ""
        let dflt :=
          if !o.mode.isEmpty && !str_in o.type dflt then o.type ++ "::" ++ dflt
          else dflt
        { st with holder_specs := st.holder_specs ++ [Tpl.holderAttrDef name dflt] }
      else { st with holder_specs := st.holder_specs ++ [Tpl.holderAttr name] }
    let long_name := if tr o.long then long_get_option (o.long.getD "") else ""
    let st := { st with decls := st.decls ++ [Tpl.optionStruct name o.type long_name] }
    let st :=
      if !o.read_only then { st with specs := st.specs ++ [Tpl.declSet name] }
      else st
    let st := { st with
      specs := st.specs ++ [Tpl.declOpBracket name, Tpl.declWasSetByUser name] }
    if tr o.long && !(["bool", "void"].contains o.type)
        && !str_in "=" (o.long.getD "") then
      .error (die ("module '" ++ mid ++ "': option '" ++ o.long.getD ""
        ++ "' with type '" ++ o.type ++ "' needs an argument description ('"
        ++ o.long.getD "" ++ "=...')"))
    else if tr o.long && (["bool", "void"].contains o.type)
        && str_in "=" (o.long.getD "") then
      .error (die ("module '" ++ mid ++ "': option '" ++ o.long.getD ""
        ++ "' with type '" ++ o.type ++ "' must not have an argument description"))
    else
      let st := { st with inls := st.inls ++ [Tpl.implOpPar name] }
      let st :=
        if !o.read_only then { st with accs := st.accs ++ [Tpl.implSet name] }
        else st
      let st := { st with
        accs := st.accs ++ [Tpl.implOpBracket name, Tpl.implWasSetByUser name] }
      let st := { st with defs := st.defs ++ [Tpl.defOption name] }
      if o.mode.isEmpty then .ok st
      else
        let values := o.mode.map Prod.fst
        let st := { st with mode_decl := st.mode_decl
          ++ [Tpl.modeEnum o.type values, Tpl.modeFuncDecl o.type] }
        let st := { st with mode_impl := st.mode_impl
          ++ [Tpl.modeFuncImpl o.type values] }
        let cases := o.mode.map (fun p => (p.2.name, p.1))
        if !tr o.long then .error (PyError.assertFail "option.long")
        else
          let st := { st with mode_decl := st.mode_decl
            ++ [Tpl.modeHandlerDecl o.type] }
          let st := { st with mode_impl := st.mode_impl
            ++ [Tpl.modeHandlerImpl o.type cases (help_mode_format o)
                  (long_get_option (o.long.getD ""))] }
          .ok st

def codegen_options_core (mid : String) :
    List MkOption → MCore → Except PyError MCore
  | [], st => .ok st
  | o :: rest, st =>
    match codegen_option_core mid o st with
    | .error e => .error e
    | .ok st1 => codegen_options_core mid rest st1

/-! File-name computation `os.path.splitext(os.path.split(module.header)[1])[0]`
(line 536).  (Python's `splitext` keeps a leading dot in a dotfile name; no
module header is a dotfile, and the embedding drops from the last dot.) -/

def path_basename (p : String) : String :=
  String.mk ((splitOnChar '/' p.data).getLastD [])

def splitext_root (p : String) : String :=
  let parts := splitOnChar '.' p.data
  if parts.length ≤ 1 then p
  else String.mk (List.intercalate ['.'] parts.dropLast)

def module_filename (header : String) : String :=
  splitext_root (path_basename header)

/-- `sorted(list(set(l)))` on strings. -/
def sort_strings (l : List String) : List String :=
  List.insertionSort (fun a b : String => str_le a b = true) l.eraseDups

/-- The rendered per-module header artifact (the named-placeholder fill of
`module_template.h`). -/
structure ModuleH where
  filename : String
  header : String
  id : String
  includes : List String
  holder_spec : List Tpl
  decls : List Tpl
  specs : List Tpl
  inls : List Tpl
  modes : List Tpl
deriving DecidableEq, Repr

/-- The rendered per-module implementation artifact (the fill of
`module_template.cpp`). -/
structure ModuleCpp where
  filename : String
  accs : List Tpl
  defs : List Tpl
  modes : List Tpl
deriving DecidableEq, Repr

/-- `codegen_module` up to (but not including) the two `write_file` calls:
the names and contents of the two per-module artifacts. -/
def codegen_module_core (m : Module) :
    Except PyError ((String × ModuleH) × (String × ModuleCpp)) :=
  match py_sorted m.options with
  | .error e => .error e
  | .ok sortedOpts =>
    match codegen_options_core m.id sortedOpts (MCore.init m.id) with
    | .error e => .error e
    | .ok st =>
      let filename := module_filename m.header
      .ok ((filename ++ ".h",
            { filename := filename, header := m.header, id := m.id
              includes := sort_strings st.includes
              holder_spec := st.holder_specs, decls := st.decls
              specs := st.specs, inls := st.inls, modes := st.mode_decl }),
           (filename ++ ".cpp",
            { filename := filename, accs := st.accs, defs := st.defs
              modes := st.mode_impl }))

/-! ### Global code generation (mkoptions.py lines 555-846)

The snippets accumulated into `options.cpp` are the constructors of `Snip`;
each is one source template (or one literal `append`ed line) filled with the
listed arguments.  `help_format` (the 80-column textwrap rendering of one
help entry, lines 384-399) is out of the specification's scope and appears
as the constructor `helpEntry` carrying the message and the label, which
determine its rendering. -/

inductive Snip where
  | caseShort (c : String)
  | caseLong (id : Nat) (long : String)
  | caseLongNo (id : Nat) (long : String)
  | callAssignBool (name opt value : String)
  | callAssign (name opt : String)
  | callHandler (h : String)
  | breakCase
  | setIf (keys : List String)
  | setHandlerCall (handler smtname : String) (witharg : Bool)
  | retStmt
  | closeBrace
  | getIf (keys : List String)
  | getBool (name : String)
  | getString (name : String)
  | getNumeric (name : String)
  | getStream (name : String)
  | getoptsBool (optname name : String)
  | getoptsNumeric (optname name : String)
  | getoptsStream (name optname : String)
  | defaultVal (name dflt : String)
  | defaultSetByUser (name : String)
  | implAssign (name handler : String) (predicates : List String)
  | implAssignBool (name : String) (predicates : List String)
  | helpModuleBanner (name : String)
  | helpEntry (msg opts : String)
deriving DecidableEq, Repr

/-- One entry of the `getopt_long` dispatch table (`TPL_GETOPT_LONG`):
the long spelling, whether it requires an argument, and the assigned ID. -/
structure GetoptEntry where
  long : String
  argument : Bool
  value : Nat
deriving DecidableEq, Repr

def g_getopt_long_start : Nat := 256

/-- `add_getopt_long(long_name, argument_req, getopt_long)` (lines 592-603):
the appended entry's ID is the fixed base plus the current table length. -/
def add_getopt_long (long_name : String) (argument_req : Bool)
    (getopt_long : List GetoptEntry) : List GetoptEntry :=
  getopt_long ++
    [⟨long_get_option long_name, argument_req,
      g_getopt_long_start + getopt_long.length⟩]

/-- The accumulating lists of `codegen_all_modules` (lines 611-624).
`headers_handler` is declared in the source and never added to. -/
structure GState where
  headers_module : List String
  headers_handler : List String
  macros_module : List String
  getopt_short : List String
  getopt_long : List GetoptEntry
  options_smt : List String
  options_getoptions : List Snip
  options_handler : List Snip
  defaults : List Snip
  custom_handlers : List Snip
  help_common : List Snip
  help_others : List Snip
  setoption_handlers : List Snip
  getoption_handlers : List Snip
deriving DecidableEq, Repr

def GState.init : GState :=
  { headers_module := [], headers_handler := [], macros_module := []
    getopt_short := [], getopt_long := [], options_smt := []
    options_getoptions := [], options_handler := [], defaults := []
    custom_handlers := [], help_common := [], help_others := []
    setoption_handlers := [], getoption_handlers := [] }

/-- `docgen(category, name, smt_name, short_name, long_name, ctype, default,
help_msg, alternate, help_common, help_others)` (lines 555-578): returns the
two help lists with this option's entry appended to the right one. -/
def docgen (category : String) (_name _smt_name : Option String)
    (short_name long_name : Option String) (ctype : String)
    (_dflt : Option String) (help_msg_in : Option String) (alternate : Bool)
    (help_common help_others : List Snip) : List Snip × List Snip :=
  let help_msg := if tr help_msg_in then help_msg_in.getD "" else "[undocumented]"
  let help_msg :=
    if category == "expert" then help_msg ++ " (EXPERTS only)" else help_msg
  let opts := help_format_options short_name long_name
  if opts != "" && category != "undocumented" then
    let help_cmd :=
      if ctype == "bool" && alternate then help_msg ++ " [*]" else help_msg
    if category == "common" then
      (help_common ++ [Snip.helpEntry help_cmd opts], help_others)
    else (help_common, help_others ++ [Snip.helpEntry help_cmd opts])
  else (help_common, help_others)

def docgen_option (o : MkOption) (help_common help_others : List Snip) :
    List Snip × List Snip :=
  docgen o.category o.name o.smt_name o.short o.long o.type o.default
    o.help o.alternate help_common help_others

/-- The handler expression generated for one option (lines 643-654). -/
def gen_handler (o : MkOption) : Option String :=
  if tr o.handler then
    if o.type == "void" then
      some ("d_handler->" ++ o.handler.getD "" ++ "(option)")
    else some ("d_handler->" ++ o.handler.getD "" ++ "(option, optionarg)")
  else if !o.mode.isEmpty then some ("stringTo" ++ o.type ++ "(optionarg)")
  else if o.type != "bool" then
    some ("handleOption<" ++ o.type ++ ">(option, optionarg)")
  else none

/-- The predicate calls generated for one option (lines 657-667), with the
source's `assert option.type != 'void'` in the non-bool branch. -/
def gen_predicates (o : MkOption) : Except PyError (List String) :=
  if !o.predicates.isEmpty then
    if o.type == "bool" then
      .ok (o.predicates.map (fun x => "d_handler->" ++ x ++ "(option, value);"))
    else if o.type == "void" then .error (PyError.assertFail "option.type != void")
    else
      .ok (o.predicates.map (fun x => "d_handler->" ++ x ++ "(option, parsedval);"))
  else .ok []

/-- Lines 670-703: the `case` snippets for the short and long spellings,
the `getopt_short`/`getopt_long` updates, and (when any case was emitted)
the assignment call and `break` appended to `options_handler`. -/
def po_cases (o : MkOption) (handler : Option String) (argument_req : Bool)
    (st : GState) : GState :=
  let cases : List Snip :=
    if tr o.short then [Snip.caseShort (o.short.getD "")] else []
  let st :=
    if tr o.short then
      { st with getopt_short := st.getopt_short ++ [o.short.getD ""]
          ++ (if argument_req then [":"] else []) }
    else st
  let cases :=
    if tr o.long then
      cases ++ [Snip.caseLong (g_getopt_long_start + st.getopt_long.length)
        (o.long.getD "")]
    else cases
  let st :=
    if tr o.long then
      { st with getopt_long :=
          add_getopt_long (o.long.getD "") argument_req st.getopt_long }
    else st
  if !cases.isEmpty then
    let cases :=
      if o.type == "bool" && tr o.name then
        cases ++ [Snip.callAssignBool (fmtOpt o.name) "option" "true"]
      else if o.type != "void" && tr o.name then
        cases ++ [Snip.callAssign (fmtOpt o.name) "option"]
      else
        match handler with
        | some h => cases ++ [Snip.callHandler (h ++ ";")]
        | none => cases
    { st with options_handler := st.options_handler ++ cases ++ [Snip.breakCase] }
  else st

/-- Lines 706-761: the setOption/getOption dispatch entries, generated when
the option has an smt name or a long spelling. -/
def po_setget (o : MkOption) (argument_req : Bool) (st : GState) : GState :=
  if tr o.smt_name || tr o.long then
    let keys := sort_strings
      ((if tr o.smt_name then [o.smt_name.getD ""] else [])
        ++ (if tr o.long then [long_get_option (o.long.getD "")] else []))
    let smtname := get_smt_name o
    let setcall : List Snip :=
      if o.type == "bool" then
        [Snip.callAssignBool (fmtOpt o.name) ("\"" ++ smtname ++ "\"")
          "optionarg == \"true\""]
      else if argument_req && tr o.name then
        [Snip.callAssign (fmtOpt o.name) ("\"" ++ smtname ++ "\"")]
      else if tr o.handler then
        [Snip.setHandlerCall (o.handler.getD "") smtname argument_req]
      else []
    let st := { st with setoption_handlers := st.setoption_handlers
      ++ [Snip.setIf keys] ++ setcall ++ [Snip.retStmt, Snip.closeBrace] }
    if tr o.name then
      let body :=
        if o.type == "bool" then [Snip.getBool (o.name.getD "")]
        else if o.type == "std::string" then [Snip.getString (o.name.getD "")]
        else if is_numeric_cpp_type o.type then [Snip.getNumeric (o.name.getD "")]
        else [Snip.getStream (o.name.getD "")]
      { st with getoption_handlers := st.getoption_handlers
        ++ [Snip.getIf keys] ++ body ++ [Snip.closeBrace] }
    else st
  else st

/-- Lines 764-779: the `--no-` alternative dispatch for boolean options with
`alternate` enabled — a second `case` block and a second `getopt_long`
entry. -/
def po_alternate (o : MkOption) (argument_req : Bool) (st : GState) : GState :=
  if tr o.long && o.type == "bool" && o.alternate then
    let cases2 := [Snip.caseLongNo
        (g_getopt_long_start + st.getopt_long.length) (o.long.getD ""),
      Snip.callAssignBool (fmtOpt o.name) "option" "false", Snip.breakCase]
    let st := { st with options_handler := st.options_handler ++ cases2 }
    { st with getopt_long :=
        add_getopt_long ("no-" ++ o.long.getD "") argument_req st.getopt_long }
  else st

/-- Lines 781-784: the first `options_smt` entry (emitted whether or not the
option has a name). -/
def po_smt (_o : MkOption) (optname : Option String) (st : GState) : GState :=
  if tr optname then
    { st with options_smt := st.options_smt ++ [optname.getD ""] }
  else st

/-- Lines 786-823: the parts generated only for named options — the
`getOptions()` entries (with a second `options_smt` entry), the
assign/assignBool handler implementation, and the default-initializer
pair. -/
def po_named (o : MkOption) (handler : Option String)
    (predicates : List String) (optname : Option String) (st : GState) :
    GState :=
  if tr o.name then
    let name := o.name.getD ""
    let st :=
      if tr optname then
        let st := { st with options_smt := st.options_smt ++ [optname.getD ""] }
        if o.type == "bool" then
          { st with options_getoptions := st.options_getoptions
            ++ [Snip.getoptsBool (optname.getD "") name] }
        else if is_numeric_cpp_type o.type then
          { st with options_getoptions := st.options_getoptions
            ++ [Snip.getoptsNumeric (optname.getD "") name] }
        else
          { st with options_getoptions := st.options_getoptions
            ++ [Snip.getoptsStream name (optname.getD "")] }
      else st
    let st :=
      if o.type == "bool" then
        { st with custom_handlers := st.custom_handlers
          ++ [Snip.implAssignBool name predicates] }
      else if tr o.short || tr o.long || tr o.smt_name then
        { st with custom_handlers := st.custom_handlers
          ++ [Snip.implAssign name (fmtOpt handler) predicates] }
      else st
    let dflt := if tr o.default then o.default.getD "" else ""
    let dflt :=
      if !o.mode.isEmpty && !str_in o.type dflt then o.type ++ "::" ++ dflt
      else dflt
    { st with defaults := st.defaults
      ++ [Snip.defaultVal name dflt, Snip.defaultSetByUser name] }
  else st

/-- `argument_req = option.type not in ['bool', 'void']` (line 638). -/
def argument_req (o : MkOption) : Bool :=
  !(["bool", "void"].contains o.type)

/-- The body of the per-option loop of `codegen_all_modules`
(lines 634-823), updating the global accumulator. -/
def process_option (o : MkOption) (st : GState) : Except PyError GState :=
  if o.type == "void" && o.name.isSome then
    .error (PyError.assertFail "option.type != void or option.name is None")
  else if !(tr o.name || tr o.smt_name || tr o.short || tr o.long) then
    .error (PyError.assertFail "option.name or option.smt_name or option.short or option.long")
  else
    let pair := docgen_option o st.help_common st.help_others
    let st := { st with help_common := pair.1, help_others := pair.2 }
    let handler := gen_handler o
    match gen_predicates o with
    | .error e => .error e
    | .ok predicates =>
      let st := po_cases o handler (argument_req o) st
      let st := po_setget o (argument_req o) st
      let st := po_alternate o (argument_req o) st
      let optname : Option String := if tr o.smt_name then o.smt_name else o.long
      let st := po_smt o optname st
      .ok (po_named o handler predicates optname st)

/-- How many command-line dispatch IDs one option consumes: one for its long
spelling, plus one for the negated spelling of an alternate-enabled boolean
with a long spelling. -/
def consumed (o : MkOption) : Nat :=
  (if tr o.long then 1 else 0) +
    (if tr o.long && o.type == "bool" && o.alternate then 1 else 0)

/-- The long-spelling names one option contributes to the `getopt_long`
table, in order. -/
def expected_longs (o : MkOption) : List String :=
  (if tr o.long then [long_get_option (o.long.getD "")] else []) ++
    (if tr o.long && o.type == "bool" && o.alternate
     then [long_get_option ("no-" ++ o.long.getD "")] else [])

/-- The effect of one option on the `getopt_long` table: one entry for its
long spelling, then one for the negated spelling of an alternate-enabled
boolean. -/
def getopt_step (o : MkOption) (gl : List GetoptEntry) : List GetoptEntry :=
  let gl1 :=
    if tr o.long then add_getopt_long (o.long.getD "") (argument_req o) gl
    else gl
  if tr o.long && o.type == "bool" && o.alternate
  then add_getopt_long ("no-" ++ o.long.getD "") (argument_req o) gl1
  else gl1

def process_options : List MkOption → GState → Except PyError GState
  | [], st => .ok st
  | o :: rest, st =>
    match process_option o st with
    | .error e => .error e
    | .ok st1 => process_options rest st1

/-- The per-module part of `codegen_all_modules`'s main loop
(lines 626-632), then its option loop in sorted order. -/
def process_module (m : Module) (st : GState) : Except PyError GState :=
  let st := { st with
    headers_module := st.headers_module ++ [format_include m.header]
    macros_module := st.macros_module ++ [m.id] }
  let st :=
    if !m.options.isEmpty then
      { st with help_others := st.help_others ++ [Snip.helpModuleBanner m.name] }
    else st
  match py_sorted m.options with
  | .error e => .error e
  | .ok sortedOpts => process_options sortedOpts st

def process_modules : List Module → GState → Except PyError GState
  | [], st => .ok st
  | m :: ms, st =>
    match process_module m st with
    | .error e => .error e
    | .ok st1 => process_modules ms st1

/-- The full accumulator of `codegen_all_modules` over all modules. -/
def global_state (ms : List Module) : Except PyError GState :=
  process_modules ms GState.init

/-! ### Artifacts and the destination directory -/

/-- One written artifact: a per-module header or implementation, the
aggregate holder `options_holder.h`, or the aggregate `options.cpp`
(whose fill includes `option_value_begin`/`option_value_end`). -/
inductive Artifact where
  | modH (a : ModuleH)
  | modCpp (a : ModuleCpp)
  | holder (headers_module macros_module : List String)
  | optsCpp (g : GState) (value_begin value_end : Nat)
deriving DecidableEq, Repr

/-- The destination directory: file path to content. -/
abbrev FSA := List (String × Artifact)

/-- `write_file(directory, name, content)` (lines 285-300): render is already
complete; if the destination file exists with equal content, nothing is
written, otherwise the file is (re)written.  The `Bool` reports whether a
write was performed. -/
def write_file {α : Type} [DecidableEq α] (fs : List (String × α))
    (directory name : String) (content : α) : List (String × α) × Bool :=
  let fname := directory ++ "/" ++ name
  match assoc_find fs fname with
  | some existing =>
    if existing = content then (fs, false) else (assoc_put fs fname content, true)
  | none => (assoc_put fs fname content, true)

def b2n : Bool → Nat
  | false => 0
  | true => 1

/-- `codegen_module(module, dst_dir, ...)`: compute the two artifacts, then
write both.  All validation inside it precedes the writes. -/
def codegen_module (m : Module) (dst_dir : String) (fs : FSA) :
    Except PyError (FSA × Nat) :=
  match codegen_module_core m with
  | .error e => .error e
  | .ok (h, cpp) =>
    let r1 := write_file fs dst_dir h.1 (Artifact.modH h.2)
    let r2 := write_file r1.1 dst_dir cpp.1 (Artifact.modCpp cpp.2)
    .ok (r2.1, b2n r1.2 + b2n r2.2)

/-- The `for module in modules: codegen_module(...)` loop of
`mkoptions_main` (lines 1010-1012).  On a failure the directory keeps
exactly the files written for the modules processed so far. -/
def codegen_modules : List Module → String → FSA → FSA × Nat × Option PyError
  | [], _, fs => (fs, 0, none)
  | m :: ms, dst, fs =>
    match codegen_module m dst fs with
    | .error e => (fs, 0, some e)
    | .ok (fs1, w) =>
      match codegen_modules ms dst fs1 with
      | (fs2, w1, err) => (fs2, w + w1, err)

/-- `codegen_all_modules(modules, dst_dir, ...)` (lines 606-846): build the
global accumulator, then write `options_holder.h` and `options.cpp`. -/
def codegen_all_modules (ms : List Module) (dst_dir : String) (fs : FSA) :
    Except PyError (FSA × Nat) :=
  match global_state ms with
  | .error e => .error e
  | .ok st =>
    let r1 := write_file fs dst_dir "options_holder.h"
      (Artifact.holder st.headers_module st.macros_module)
    let r2 := write_file r1.1 dst_dir "options.cpp"
      (Artifact.optsCpp st g_getopt_long_start
        (g_getopt_long_start + st.getopt_long.length))
    .ok (r2.1, b2n r1.2 + b2n r2.2)

/-! ### The whole run (mkoptions.py lines 967-1015) -/

/-- The required-argument check of `mkoptions_main` (lines 968-974):
`sys.argv` must have at least 5 entries (program name, template directory,
destination directory, and at least TWO specification documents — although
the script's own usage text says `<toml>+`, one or more). -/
def mkoptions_check_args (argv : List String) :
    Except PyError (String × String × List String) :=
  if argv.length < 5 then .error (die "missing arguments")
  else
    match argv with
    | _ :: src_dir :: dst_dir :: filenames => .ok (src_dir, dst_dir, filenames)
    | _ => .error (die "missing arguments")

/-- The generation pipeline of `mkoptions_main` after the documents are
loaded: parse and validate every document, then write per-module artifacts,
then the two aggregate artifacts.  Returns the final directory contents,
the number of file writes performed, and the error the run died with, if
any. -/
def run_pipeline (docs : List (String × Module)) (dst_dir : String) (fs : FSA) :
    FSA × Nat × Option PyError :=
  match parse_stage docs ParseSt.init with
  | .error e => (fs, 0, some e)
  | .ok (modules, _) =>
    match codegen_modules modules dst_dir fs with
    | (fs1, w1, some e) => (fs1, w1, some e)
    | (fs1, w1, none) =>
      match codegen_all_modules modules dst_dir fs1 with
      | .error e => (fs1, w1, some e)
      | .ok (fs2, w2) => (fs2, w1 + w2, none)

/-! ### Decidable equality of run results -/

instance {ε α : Type} [DecidableEq ε] [DecidableEq α] : DecidableEq (Except ε α) :=
  fun x y =>
    match x, y with
    | .error a, .error b => decidable_of_iff (a = b) (by simp)
    | .ok a, .ok b => decidable_of_iff (a = b) (by simp)
    | .error _, .ok _ => isFalse (by simp)
    | .ok _, .error _ => isFalse (by simp)

/-! ### Concrete fixtures used by the claim theorems -/

/-- A boolean option: display name `optA`, long `alpha`, short `x`,
smt name `sname`. -/
def oA1 : MkOption :=
  { baseOption with
    name := some "optA", long := some "alpha",
    short := some "x", smt_name := some "sname", help := some "h" }

/-- A boolean option reusing `optA`, `x` and `sname` but with long `beta`. -/
def oA2 : MkOption :=
  { baseOption with
    name := some "optA", long := some "beta",
    short := some "x", smt_name := some "sname", help := some "h" }

/-- Two documents whose modules share the id `arith`, and whose options share
the display name, the short spelling and the smt name — everything except
the long spelling. -/
def dupOtherDocs : List (String × Module) :=
  [("a1.toml", ⟨"arith", "Arith", "options/a1.h", [oA1]⟩),
   ("a2.toml", ⟨"arith", "Arith", "options/a2.h", [oA2]⟩)]

def oFoo1 : MkOption :=
  { baseOption with name := some "optF", long := some "foo", help := some "h" }

def oFoo2 : MkOption :=
  { baseOption with name := some "optG", long := some "foo", help := some "h" }

/-- Two documents declaring the same long spelling `foo`. -/
def dupLongDocs : List (String × Module) :=
  [("a.toml", ⟨"m1", "M1", "options/m1.h", [oFoo1]⟩),
   ("b.toml", ⟨"m2", "M2", "options/m2.h", [oFoo2]⟩)]

/-- A boolean option whose long spelling carries an argument marker — the
argument-marker consistency check rejects it. -/
def oBadMarker : MkOption :=
  { baseOption with name := some "optB", long := some "beta=X", help := some "h" }

/-- A good first module followed by a module failing the argument-marker
check. -/
def partialDocs : List (String × Module) :=
  [("a.toml", ⟨"m1", "M1", "options/m1.h", [oFoo1]⟩),
   ("b.toml", ⟨"m2", "M2", "options/m2.h", [oBadMarker]⟩)]

/-- An option whose short spelling has no companion long spelling — rejected
by `parse_module`. -/
def oShortNoLong : MkOption :=
  { baseOption with name := some "optS", short := some "s", help := some "h" }

def badParseDocs : List (String × Module) :=
  [("a.toml", ⟨"m1", "M1", "options/m1.h", [oShortNoLong]⟩)]

def oFoo : MkOption :=
  { baseOption with name := some "optFoo", long := some "foo", help := some "h" }

def oBar : MkOption :=
  { baseOption with name := some "optBar", long := some "bar", help := some "h" }

/-- One module declaring `foo` before `bar`. -/
def mFooBar : Module := ⟨"m", "M", "options/m.h", [oFoo, oBar]⟩

/-- The same module declaring `bar` before `foo`. -/
def mBarFoo : Module := ⟨"m", "M", "options/m.h", [oBar, oFoo]⟩

/-- Two modules with distinct ids but colliding header base names (`x.h`):
their generated artifacts land on the same destination paths. -/
def collideDocs : List (String × Module) :=
  [("a.toml", ⟨"m1", "M1", "a/x.h", [oFoo]⟩),
   ("b.toml", ⟨"m2", "M2", "b/x.h", [oBar]⟩)]

/-- A module whose only option has no display name and violates the
argument-marker rule (`bool` with `=` in the long spelling). -/
def mNameless : Module :=
  ⟨"m", "M", "options/m.h",
   [{ baseOption with name := none, long := some "x=ARG", help := some "h" }]⟩

/-- The same module with the option given a display name. -/
def mNamelessNamed : Module :=
  ⟨"m", "M", "options/m.h",
   [{ baseOption with name := some "optX", long := some "x=ARG", help := some "h" }]⟩

/-- A module used to witness ID assignment: two alternating booleans and one
argument-taking option give five dispatch IDs. -/
def mIds : Module :=
  ⟨"m", "M", "options/m.h",
   [oFoo, oBar,
    { baseOption with
      name := some "optS", long := some "str=VAL",
      type := "string", help := some "h" }]⟩

/-- The two artifact file names generated for a module with the given
header. -/
def header_artifact_names (header : String) : List String :=
  [module_filename header ++ ".h", module_filename header ++ ".cpp"]

/-- The names of all files a successful run writes, in write order: two per
module, then the two aggregate artifacts. -/
def artifact_names (docs : List (String × Module)) : List String :=
  (docs.map (fun d => d.2.header)).flatMap header_artifact_names
    ++ ["options_holder.h", "options.cpp"]

/-- Two documents with distinct header base names (`x1.h`, `x2.h`): all
artifact paths of the run are pairwise distinct. -/
def okDocs : List (String × Module) :=
  [("a.toml", ⟨"m1", "M1", "a/x1.h", [oFoo]⟩),
   ("b.toml", ⟨"m2", "M2", "b/x2.h", [oBar]⟩)]

/-- An option with neither a display name nor a long spelling (legal input:
category `undocumented` needs no help, and no parse check requires a name or
long).  Its Python sort key is `None`. -/
def oNoKey : MkOption :=
  { baseOption with category := "undocumented" }

/-- A module pairing the `None`-keyed option with an ordinary one: at lines
446-447 `sorted` compares the `None` key and raises `TypeError`. -/
def mCrash : Module := ⟨"m", "M", "options/m.h", [oNoKey, oFoo]⟩

/-- A module pairing a nameless option that HAS a long spelling (so its key
is a string) with an ordinary option: the nameless one is skipped. -/
def mSkipOk : Module :=
  ⟨"m", "M", "options/m.h",
   [{ baseOption with name := none, long := some "x=ARG", help := some "h" },
    oFoo]⟩

/-- A boolean option with long `zeta` and `alternate = false`. -/
def oNoAlt : MkOption :=
  { baseOption with
    name := some "optZ", long := some "zeta", help := some "h",
    alternate := false }

/-- `{ m with options := only the options that have a display name }`. -/
def filterNamed (m : Module) : Module :=
  { m with options := m.options.filter (fun o => o.name.isSome) }

/-- Two modules that are the same document up to the declaration order of
their options, with pairwise-distinct sort keys (as global long-spelling
uniqueness guarantees for options keyed by their long spelling). -/
def ModulePermEq (m1 m2 : Module) : Prop :=
  m1.id = m2.id ∧ m1.name = m2.name ∧ m1.header = m2.header ∧
    m1.options.Perm m2.options ∧ (m1.options.map sort_key).Nodup

/-! ## Helper lemmas about the traversal order -/

theorem orderedInsert_all_le (a : MkOption) :
    ∀ t : List MkOption, (∀ x ∈ t, opt_le a x) →
      List.orderedInsert opt_le a t = a :: t
  | [], _ => rfl
  | b :: t, h =>
    List.orderedInsert_of_le opt_le t (h b (List.mem_cons_self b t))

theorem filter_orderedInsert_pos (p : MkOption → Bool) (a : MkOption)
    (hpa : p a = true) :
    ∀ s : List MkOption, s.Sorted opt_le →
      (List.orderedInsert opt_le a s).filter p
        = List.orderedInsert opt_le a (s.filter p) := by
  intro s
  induction s with
  | nil => intro _; simp [hpa]
  | cons b s ih =>
    intro hs
    have hs' : s.Sorted opt_le := hs.of_cons
    by_cases hab : opt_le a b
    · rw [List.orderedInsert_of_le opt_le s hab]
      cases hpb : p b
      · have hall : ∀ x ∈ s.filter p, opt_le a x := by
          intro x hx
          have hxs : x ∈ s := List.mem_of_mem_filter hx
          have hbx : opt_le b x := (List.sorted_cons.mp hs).1 x hxs
          exact opt_le_trans hab hbx
        simp only [List.filter_cons, hpa, hpb, if_pos, if_neg, Bool.false_eq_true,
          if_false, if_true]
        rw [orderedInsert_all_le a (s.filter p) hall]
      · simp only [List.filter_cons, hpa, hpb, if_true]
        rw [List.orderedInsert_of_le opt_le (s.filter p) hab]
    · have hstep : List.orderedInsert opt_le a (b :: s)
          = b :: List.orderedInsert opt_le a s := by
        simp [List.orderedInsert, hab]
      rw [hstep]
      cases hpb : p b
      · simp only [List.filter_cons, hpb, Bool.false_eq_true, if_false]
        exact ih hs'
      · simp only [List.filter_cons, hpb, if_true]
        rw [ih hs']
        have hstep2 : List.orderedInsert opt_le a (b :: s.filter p)
            = b :: List.orderedInsert opt_le a (s.filter p) := by
          simp [List.orderedInsert, hab]
        rw [hstep2]

theorem filter_orderedInsert_neg (p : MkOption → Bool) (a : MkOption)
    (hpa : p a = false) (s : List MkOption) :
    (List.orderedInsert opt_le a s).filter p = s.filter p := by
  rw [List.orderedInsert_eq_take_drop opt_le a s, List.filter_append,
    List.filter_cons]
  simp only [hpa, Bool.false_eq_true, if_false]
  rw [← List.filter_append, List.takeWhile_append_dropWhile]

/-- A stable sort commutes with `filter`: sorting the named options only is
the same as sorting everything and then keeping the named ones. -/
theorem insertionSort_filter (p : MkOption → Bool) :
    ∀ l : List MkOption,
      List.insertionSort opt_le (l.filter p)
        = (List.insertionSort opt_le l).filter p := by
  intro l
  induction l with
  | nil => rfl
  | cons a l ih =>
    cases hpa : p a
    · rw [List.filter_cons]
      simp only [hpa, Bool.false_eq_true, if_false]
      rw [ih, List.insertionSort, filter_orderedInsert_neg p a hpa]
    · rw [List.filter_cons]
      simp only [hpa, if_true]
      rw [List.insertionSort, ih, List.insertionSort,
        filter_orderedInsert_pos p a hpa _ (List.sorted_insertionSort opt_le l)]

/-- The per-module emission loop ignores options without a display name
(`if option.name is None: continue`). -/
theorem codegen_options_core_filter (mid : String) :
    ∀ (l : List MkOption) (st : MCore),
      codegen_options_core mid l st
        = codegen_options_core mid (l.filter (fun o => o.name.isSome)) st := by
  intro l
  induction l with
  | nil => intro st; rfl
  | cons o l ih =>
    intro st
    cases hn : o.name with
    | none =>
      have hq : (fun o : MkOption => o.name.isSome) o = false := by simp [hn]
      simp only [List.filter_cons, hq, Bool.false_eq_true, if_false]
      have hskip : codegen_option_core mid o st = .ok st := by
        unfold codegen_option_core
        rw [hn]
      simp only [codegen_options_core, hskip]
      exact ih st
    | some nm =>
      have hq : (fun o : MkOption => o.name.isSome) o = true := by simp [hn]
      simp only [List.filter_cons, hq, if_true]
      simp only [codegen_options_core]
      cases codegen_option_core mid o st with
      | error e => rfl
      | ok st1 => exact ih st1

/-- Two sorted lists that are permutations of one another and have
pairwise-distinct sort keys are equal. -/
theorem sorted_opt_perm_eq :
    ∀ {l1 l2 : List MkOption}, l1.Perm l2 → (l1.map sort_key).Nodup →
      l1.Sorted opt_le → l2.Sorted opt_le → l1 = l2 := by
  intro l1
  induction l1 with
  | nil =>
    intro l2 hp _ _ _
    exact hp.symm.eq_nil.symm
  | cons a t1 ih =>
    intro l2 hp hnd hs1 hs2
    cases l2 with
    | nil => exact (List.cons_ne_nil a t1 hp.eq_nil).elim
    | cons b t2 =>
      have hab : a = b := by
        by_contra hne
        have ha2 : a ∈ b :: t2 := hp.mem_iff.mp (List.mem_cons_self a t1)
        have hb1 : b ∈ a :: t1 := hp.mem_iff.mpr (List.mem_cons_self b t2)
        have ha : a ∈ t2 := by
          cases List.mem_cons.mp ha2 with
          | inl h => exact absurd h hne
          | inr h => exact h
        have hb : b ∈ t1 := by
          cases List.mem_cons.mp hb1 with
          | inl h => exact absurd h.symm hne
          | inr h => exact h
        have h1 : opt_le a b := (List.sorted_cons.mp hs1).1 b hb
        have h2 : opt_le b a := (List.sorted_cons.mp hs2).1 a ha
        have hk : sort_key a = sort_key b := str_le_antisymm _ _ h1 h2
        have hmem : sort_key b ∈ t1.map sort_key := List.mem_map_of_mem sort_key hb
        rw [← hk] at hmem
        exact (List.nodup_cons.mp (by simpa using hnd)).1 hmem
      subst hab
      have hnd1 : (t1.map sort_key).Nodup :=
        (List.nodup_cons.mp (by simpa using hnd)).2
      rw [ih hp.cons_inv hnd1 (List.sorted_cons.mp hs1).2 (List.sorted_cons.mp hs2).2]

/-- Permuting the declaration order of options with distinct keys does not
change the traversal. -/
theorem sorted_options_congr (m1 m2 : Module) (hp : m1.options.Perm m2.options)
    (hnd : (m1.options.map sort_key).Nodup) :
    sorted_options m1 = sorted_options m2 := by
  apply sorted_opt_perm_eq
  · exact (List.perm_insertionSort opt_le m1.options).trans
      (hp.trans (List.perm_insertionSort opt_le m2.options).symm)
  · exact ((List.perm_insertionSort opt_le m1.options).map sort_key).nodup_iff.mpr hnd
  · exact List.sorted_insertionSort opt_le m1.options
  · exact List.sorted_insertionSort opt_le m2.options

theorem insertionSort_congr (l1 l2 : List MkOption) (hp : l1.Perm l2)
    (hnd : (l1.map sort_key).Nodup) :
    List.insertionSort opt_le l1 = List.insertionSort opt_le l2 := by
  apply sorted_opt_perm_eq
  · exact (List.perm_insertionSort opt_le l1).trans
      (hp.trans (List.perm_insertionSort opt_le l2).symm)
  · exact ((List.perm_insertionSort opt_le l1).map sort_key).nodup_iff.mpr hnd
  · exact List.sorted_insertionSort opt_le l1
  · exact List.sorted_insertionSort opt_le l2

theorem py_sort_key_some (o : MkOption) (x : String)
    (h : py_sort_key o = some x) : sort_key o = x := by
  unfold py_sort_key at h
  unfold sort_key
  by_cases hl : tr o.long
  · simp only [hl, if_true] at h ⊢
    rw [h]
    rfl
  · simp only [hl, Bool.false_eq_true, if_false] at h ⊢
    rw [h]
    rfl

theorem py_le_some (a b : MkOption) (ha : (py_sort_key a).isSome)
    (hb : (py_sort_key b).isSome) :
    py_le a b = .ok (str_le (sort_key a) (sort_key b)) := by
  obtain ⟨x, hx⟩ := Option.isSome_iff_exists.mp ha
  obtain ⟨y, hy⟩ := Option.isSome_iff_exists.mp hb
  unfold py_le
  rw [hx]
  rw [hy]
  dsimp only
  rw [py_sort_key_some a x hx]
  rw [py_sort_key_some b y hy]

theorem py_le_none_left (a b : MkOption) (h : py_sort_key a = none) :
    py_le a b = .error PyError.typeError := by
  unfold py_le
  rw [h]

theorem py_le_none_right (a b : MkOption) (h : py_sort_key b = none) :
    py_le a b = .error PyError.typeError := by
  unfold py_le
  rw [h]
  cases py_sort_key a <;> rfl

theorem py_orderedInsert_some (a : MkOption) (ha : (py_sort_key a).isSome) :
    ∀ s : List MkOption, (∀ o ∈ s, (py_sort_key o).isSome) →
      py_orderedInsert a s = .ok (List.orderedInsert opt_le a s) := by
  intro s
  induction s with
  | nil => intro _; rfl
  | cons b s ih =>
    intro hs
    unfold py_orderedInsert
    rw [py_le_some a b ha (hs b (List.mem_cons_self b s))]
    cases hle : str_le (sort_key a) (sort_key b)
    · have hno : ¬ opt_le a b := by
        unfold opt_le
        rw [hle]
        exact Bool.false_ne_true
      dsimp only
      rw [ih (fun o ho => hs o (List.mem_cons_of_mem b ho))]
      dsimp only
      simp only [List.orderedInsert]
      rw [if_neg hno]
    · have hyes : opt_le a b := hle
      dsimp only
      simp only [List.orderedInsert]
      rw [if_pos hyes]

theorem py_orderedInsert_none_head (a b : MkOption) (s : List MkOption)
    (h : py_sort_key a = none ∨ py_sort_key b = none) :
    py_orderedInsert a (b :: s) = .error PyError.typeError := by
  unfold py_orderedInsert
  cases h with
  | inl h => rw [py_le_none_left a b h]
  | inr h => rw [py_le_none_right a b h]

/-- The behaviour of the `sorted` call: a `TypeError` exactly when the list
has at least two elements and some option's Python key is `None`; the
stable sort by key otherwise. -/
theorem py_sorted_spec (l : List MkOption) :
    py_sorted l
      = if 2 ≤ l.length ∧ (∃ o ∈ l, py_sort_key o = none)
        then .error PyError.typeError
        else .ok (List.insertionSort opt_le l) := by
  induction l with
  | nil =>
    rw [if_neg]
    · rfl
    · intro hc
      simp at hc
  | cons a l ih =>
    unfold py_sorted
    rw [ih]
    by_cases hc : 2 ≤ l.length ∧ (∃ o ∈ l, py_sort_key o = none)
    · rw [if_pos hc]
      obtain ⟨hl2, o, ho, hko⟩ := hc
      rw [if_pos ⟨by simp; omega, ⟨o, List.mem_cons_of_mem a ho, hko⟩⟩]
    · rw [if_neg hc]
      cases l with
      | nil =>
        rw [if_neg]
        · rfl
        · intro h2
          simp at h2
      | cons b l2 =>
        by_cases hex : ∃ o ∈ b :: l2, py_sort_key o = none
        · have hlen : (b :: l2).length < 2 := by
            by_contra hl2
            exact hc ⟨Nat.le_of_not_lt hl2, hex⟩
          have hl2nil : l2 = [] := by
            cases l2 with
            | nil => rfl
            | cons c l3 =>
              simp only [List.length_cons] at hlen
              exact absurd hlen (by omega)
          subst hl2nil
          obtain ⟨o, ho, hko⟩ := hex
          have hob : o = b := List.mem_singleton.mp ho
          subst hob
          rw [show List.insertionSort opt_le [o] = [o] from rfl]
          dsimp only
          rw [py_orderedInsert_none_head a o [] (Or.inr hko)]
          rw [if_pos ⟨by simp, ⟨o, by simp, hko⟩⟩]
        · have hall : ∀ o ∈ b :: l2, (py_sort_key o).isSome := by
            intro o ho
            cases hk : py_sort_key o with
            | none => exact absurd ⟨o, ho, hk⟩ hex
            | some x => rfl
          by_cases hka : (py_sort_key a).isSome
          · have hallS : ∀ o ∈ List.insertionSort opt_le (b :: l2),
                (py_sort_key o).isSome := by
              intro o ho
              exact hall o ((List.perm_insertionSort opt_le (b :: l2)).subset ho)
            dsimp only
            rw [py_orderedInsert_some a hka _ hallS]
            rw [if_neg ?_]
            · rfl
            · rintro ⟨_, o, ho, hko⟩
              cases List.mem_cons.mp ho with
              | inl he =>
                subst he
                rw [hko] at hka
                exact Bool.false_ne_true hka
              | inr hm =>
                have := hall o hm
                rw [hko] at this
                exact Bool.false_ne_true this
          · have hka0 : py_sort_key a = none :=
              Option.not_isSome_iff_eq_none.mp hka
            obtain ⟨c, s2, hs⟩ : ∃ c s2,
                List.insertionSort opt_le (b :: l2) = c :: s2 := by
              cases hss : List.insertionSort opt_le (b :: l2) with
              | nil =>
                have hperm := List.perm_insertionSort opt_le (b :: l2)
                rw [hss] at hperm
                exact (List.cons_ne_nil b l2 (hperm.symm.eq_nil)).elim
              | cons c s2 => exact ⟨c, s2, rfl⟩
            dsimp only
            rw [hs]
            rw [py_orderedInsert_none_head a c s2 (Or.inl hka0)]
            rw [if_pos ⟨by simp, ⟨a, List.mem_cons_self _ _, hka0⟩⟩]

theorem py_sorted_ok_eq (l s : List MkOption) (h : py_sorted l = .ok s) :
    s = List.insertionSort opt_le l := by
  rw [py_sorted_spec] at h
  by_cases hc : 2 ≤ l.length ∧ (∃ o ∈ l, py_sort_key o = none)
  · rw [if_pos hc] at h
    exact Except.noConfusion h
  · rw [if_neg hc] at h
    injection h with h1
    exact h1.symm

theorem py_sorted_all_some (l : List MkOption)
    (h : ∀ o ∈ l, (py_sort_key o).isSome) :
    py_sorted l = .ok (List.insertionSort opt_le l) := by
  rw [py_sorted_spec, if_neg]
  rintro ⟨_, o, ho, hko⟩
  have := h o ho
  rw [hko] at this
  exact Bool.false_ne_true this

theorem py_sorted_perm (l1 l2 : List MkOption) (hp : l1.Perm l2)
    (hnd : (l1.map sort_key).Nodup) : py_sorted l1 = py_sorted l2 := by
  rw [py_sorted_spec, py_sorted_spec]
  have hlen := hp.length_eq
  by_cases hc : 2 ≤ l1.length ∧ (∃ o ∈ l1, py_sort_key o = none)
  · obtain ⟨h2, o, ho, hko⟩ := hc
    rw [if_pos ⟨h2, o, ho, hko⟩,
      if_pos ⟨hlen ▸ h2, o, hp.mem_iff.mp ho, hko⟩]
  · rw [if_neg hc, if_neg ?_, insertionSort_congr l1 l2 hp hnd]
    rintro ⟨h2, o, ho, hko⟩
    exact hc ⟨hlen ▸ h2, o, hp.mem_iff.mpr ho, hko⟩

theorem codegen_module_core_perm (m1 m2 : Module) (h : ModulePermEq m1 m2) :
    codegen_module_core m1 = codegen_module_core m2 := by
  obtain ⟨hid, _, hh, hp, hnd⟩ := h
  unfold codegen_module_core
  rw [hid, hh, py_sorted_perm m1.options m2.options hp hnd]

theorem codegen_module_perm (m1 m2 : Module) (h : ModulePermEq m1 m2)
    (dst : String) (fs : FSA) :
    codegen_module m1 dst fs = codegen_module m2 dst fs := by
  unfold codegen_module
  rw [codegen_module_core_perm m1 m2 h]

theorem codegen_modules_perm :
    ∀ {ms1 ms2 : List Module}, List.Forall₂ ModulePermEq ms1 ms2 →
      ∀ dst fs, codegen_modules ms1 dst fs = codegen_modules ms2 dst fs := by
  intro ms1 ms2 hf
  induction hf with
  | nil => intro dst fs; rfl
  | @cons a b l1 l2 h _ ih =>
    intro dst fs
    simp only [codegen_modules]
    rw [codegen_module_perm a b h dst fs]
    cases codegen_module b dst fs with
    | error e => rfl
    | ok r =>
      obtain ⟨fs1, w⟩ := r
      dsimp only
      rw [ih dst fs1]

theorem process_module_perm (m1 m2 : Module) (h : ModulePermEq m1 m2)
    (st : GState) : process_module m1 st = process_module m2 st := by
  obtain ⟨hid, hn, hh, hp, hnd⟩ := h
  have hb : m1.options.isEmpty = m2.options.isEmpty := by
    cases h1 : m1.options with
    | nil =>
      have h2 : m2.options = [] := (h1 ▸ hp).symm.eq_nil
      rw [h2]
    | cons a l =>
      cases h3 : m2.options with
      | nil =>
        rw [h3] at hp
        have hx : m1.options = [] := hp.eq_nil
        rw [h1] at hx
        exact (List.cons_ne_nil a l hx).elim
      | cons b l2 => rfl
  unfold process_module
  rw [hid, hn, hh, hb, py_sorted_perm m1.options m2.options hp hnd]

theorem process_modules_perm :
    ∀ {ms1 ms2 : List Module}, List.Forall₂ ModulePermEq ms1 ms2 →
      ∀ st, process_modules ms1 st = process_modules ms2 st := by
  intro ms1 ms2 hf
  induction hf with
  | nil => intro st; rfl
  | @cons a b l1 l2 h _ ih =>
    intro st
    simp only [process_modules]
    rw [process_module_perm a b h st]
    cases process_module b st with
    | error e => rfl
    | ok st1 => exact ih st1

theorem codegen_all_modules_perm {ms1 ms2 : List Module}
    (hf : List.Forall₂ ModulePermEq ms1 ms2) (dst : String) (fs : FSA) :
    codegen_all_modules ms1 dst fs = codegen_all_modules ms2 dst fs := by
  unfold codegen_all_modules global_state
  rw [process_modules_perm hf GState.init]

/-! ## Helper lemmas about dispatch-ID assignment -/

theorem po_setget_getopt (o : MkOption) (ar : Bool) (st : GState) :
    (po_setget o ar st).getopt_long = st.getopt_long := by
  unfold po_setget
  dsimp only
  split_ifs <;> rfl

theorem po_smt_getopt (o : MkOption) (optname : Option String) (st : GState) :
    (po_smt o optname st).getopt_long = st.getopt_long := by
  unfold po_smt
  split_ifs <;> rfl

theorem po_named_getopt (o : MkOption) (h : Option String) (p : List String)
    (optname : Option String) (st : GState) :
    (po_named o h p optname st).getopt_long = st.getopt_long := by
  unfold po_named
  dsimp only
  split_ifs <;> rfl

theorem po_cases_getopt (o : MkOption) (h : Option String) (ar : Bool)
    (st : GState) :
    (po_cases o h ar st).getopt_long
      = if tr o.long then add_getopt_long (o.long.getD "") ar st.getopt_long
        else st.getopt_long := by
  unfold po_cases
  dsimp only
  split_ifs <;> rfl

theorem po_alternate_getopt (o : MkOption) (ar : Bool) (st : GState) :
    (po_alternate o ar st).getopt_long
      = if tr o.long && o.type == "bool" && o.alternate
        then add_getopt_long ("no-" ++ o.long.getD "") ar st.getopt_long
        else st.getopt_long := by
  unfold po_alternate
  dsimp only
  split_ifs <;> rfl

theorem process_option_getopt (o : MkOption) (st st' : GState)
    (h : process_option o st = .ok st') :
    st'.getopt_long = getopt_step o st.getopt_long := by
  unfold process_option at h
  split at h
  · exact Except.noConfusion h
  · split at h
    · exact Except.noConfusion h
    · dsimp only at h
      split at h
      · exact Except.noConfusion h
      · injection h with h1
        subst h1
        rw [po_named_getopt, po_smt_getopt, po_alternate_getopt, po_setget_getopt,
          po_cases_getopt]
        rfl

theorem getopt_step_spec (o : MkOption) (gl : List GetoptEntry)
    (hv : gl.map GetoptEntry.value
      = List.range' g_getopt_long_start gl.length) :
    (getopt_step o gl).length = gl.length + consumed o ∧
    (getopt_step o gl).map GetoptEntry.value
      = List.range' g_getopt_long_start (getopt_step o gl).length ∧
    (getopt_step o gl).map GetoptEntry.long
      = gl.map GetoptEntry.long ++ expected_longs o := by
  unfold getopt_step consumed expected_longs add_getopt_long
  by_cases h1 : tr o.long
  · by_cases h2 : o.type = "bool" ∧ o.alternate = true
    · obtain ⟨hb, ha⟩ := h2
      refine ⟨?_, ?_, ?_⟩ <;>
        simp [h1, hb, ha, hv, List.range'_1_concat, Nat.add_assoc]
    · refine ⟨?_, ?_, ?_⟩ <;>
        simp [h1, h2, hv, List.range'_1_concat]
  · have h2 : (tr o.long && o.type == "bool" && o.alternate) = false := by
      simp [h1]
    simp only [h1, h2, Bool.false_eq_true, if_false]
    exact ⟨rfl, hv, by simp⟩

theorem process_options_getopt :
    ∀ (l : List MkOption) (st st' : GState), process_options l st = .ok st' →
      st.getopt_long.map GetoptEntry.value
        = List.range' g_getopt_long_start st.getopt_long.length →
      (st'.getopt_long.map GetoptEntry.value
          = List.range' g_getopt_long_start st'.getopt_long.length ∧
       st'.getopt_long.length
          = st.getopt_long.length + (l.map consumed).sum ∧
       st'.getopt_long.map GetoptEntry.long
          = st.getopt_long.map GetoptEntry.long ++ l.flatMap expected_longs) := by
  intro l
  induction l with
  | nil =>
    intro st st' h hv
    unfold process_options at h
    injection h with h1
    subst h1
    simp [hv]
  | cons o l ih =>
    intro st st' h hv
    unfold process_options at h
    cases hpo : process_option o st with
    | error e => rw [hpo] at h; exact Except.noConfusion h
    | ok st1 =>
      rw [hpo] at h
      have hgl : st1.getopt_long = getopt_step o st.getopt_long :=
        process_option_getopt o st st1 hpo
      obtain ⟨hlen, hval, hlong⟩ := getopt_step_spec o st.getopt_long hv
      have hv1 : st1.getopt_long.map GetoptEntry.value
          = List.range' g_getopt_long_start st1.getopt_long.length := by
        rw [hgl]; exact hval
      obtain ⟨iv, il, ilong⟩ := ih st1 st' h hv1
      refine ⟨iv, ?_, ?_⟩
      · rw [il, hgl, hlen, List.map_cons, List.sum_cons, Nat.add_assoc]
      · rw [ilong, hgl, hlong, List.flatMap_cons, List.append_assoc]

theorem process_module_getopt (m : Module) (st st' : GState)
    (h : process_module m st = .ok st')
    (hv : st.getopt_long.map GetoptEntry.value
      = List.range' g_getopt_long_start st.getopt_long.length) :
    st'.getopt_long.map GetoptEntry.value
        = List.range' g_getopt_long_start st'.getopt_long.length ∧
    st'.getopt_long.length
        = st.getopt_long.length + ((sorted_options m).map consumed).sum ∧
    st'.getopt_long.map GetoptEntry.long
        = st.getopt_long.map GetoptEntry.long
          ++ (sorted_options m).flatMap expected_longs := by
  unfold process_module at h
  dsimp only at h
  cases hps : py_sorted m.options with
  | error e =>
    rw [hps] at h
    exact Except.noConfusion h
  | ok s =>
    rw [hps] at h
    dsimp only at h
    have hseq : s = sorted_options m := py_sorted_ok_eq _ _ hps
    rw [hseq] at h
    split at h
    · have hres := process_options_getopt _ _ _ h (by exact hv)
      exact hres
    · have hres := process_options_getopt _ _ _ h (by exact hv)
      exact hres

theorem process_modules_getopt :
    ∀ (ms : List Module) (st st' : GState), process_modules ms st = .ok st' →
      st.getopt_long.map GetoptEntry.value
        = List.range' g_getopt_long_start st.getopt_long.length →
      (st'.getopt_long.map GetoptEntry.value
          = List.range' g_getopt_long_start st'.getopt_long.length ∧
       st'.getopt_long.length
          = st.getopt_long.length
            + (ms.map (fun m => ((sorted_options m).map consumed).sum)).sum ∧
       st'.getopt_long.map GetoptEntry.long
          = st.getopt_long.map GetoptEntry.long
            ++ ms.flatMap (fun m => (sorted_options m).flatMap expected_longs)) := by
  intro ms
  induction ms with
  | nil =>
    intro st st' h hv
    unfold process_modules at h
    injection h with h1
    subst h1
    simp [hv]
  | cons m ms ih =>
    intro st st' h hv
    unfold process_modules at h
    cases hpm : process_module m st with
    | error e => rw [hpm] at h; exact Except.noConfusion h
    | ok st1 =>
      rw [hpm] at h
      obtain ⟨hval, hlen, hlong⟩ := process_module_getopt m st st1 hpm hv
      obtain ⟨iv, il, ilong⟩ := ih st1 st' h hval
      refine ⟨iv, ?_, ?_⟩
      · rw [il, hlen, List.map_cons, List.sum_cons, Nat.add_assoc]
      · rw [ilong, hlong, List.flatMap_cons, List.append_assoc]

/-! ## Helper lemmas about the write layer -/

theorem assoc_put_find {α : Type} :
    ∀ (fs : List (String × α)) (p : String) (a : α),
      assoc_find (assoc_put fs p a) p = some a := by
  intro fs
  induction fs with
  | nil => intro p a; simp [assoc_put, assoc_find]
  | cons kv fs ih =>
    intro p a
    by_cases h : kv.1 = p
    · simp [assoc_put, assoc_find, h]
    · simp [assoc_put, assoc_find, h, ih]

theorem assoc_put_find_ne {α : Type} :
    ∀ (fs : List (String × α)) (p : String) (a : α) (q : String), q ≠ p →
      assoc_find (assoc_put fs p a) q = assoc_find fs q := by
  intro fs
  induction fs with
  | nil =>
    intro p a q hq
    simp [assoc_put, assoc_find, Ne.symm hq]
  | cons kv fs ih =>
    intro p a q hq
    by_cases h : kv.1 = p
    · simp [assoc_put, assoc_find, h, Ne.symm hq]
    · simp [assoc_put, assoc_find, h, ih _ _ _ hq]

theorem write_file_find {α : Type} [DecidableEq α]
    (fs : List (String × α)) (dir name : String) (content : α) :
    assoc_find (write_file fs dir name content).1 (dir ++ "/" ++ name)
      = some content := by
  unfold write_file
  dsimp only
  cases h : assoc_find fs (dir ++ "/" ++ name) with
  | none => exact assoc_put_find fs (dir ++ "/" ++ name) content
  | some existing =>
    dsimp only
    by_cases he : existing = content
    · rw [if_pos he]
      rw [← he]
      exact h
    · rw [if_neg he]
      exact assoc_put_find fs (dir ++ "/" ++ name) content

theorem write_file_find_ne {α : Type} [DecidableEq α]
    (fs : List (String × α)) (dir name : String) (content : α) (p : String)
    (hp : p ≠ dir ++ "/" ++ name) :
    assoc_find (write_file fs dir name content).1 p = assoc_find fs p := by
  unfold write_file
  dsimp only
  cases h : assoc_find fs (dir ++ "/" ++ name) with
  | none => exact assoc_put_find_ne fs (dir ++ "/" ++ name) content p hp
  | some existing =>
    dsimp only
    by_cases he : existing = content
    · rw [if_pos he]
    · rw [if_neg he]
      exact assoc_put_find_ne fs (dir ++ "/" ++ name) content p hp

theorem write_file_noop {α : Type} [DecidableEq α]
    (fs : List (String × α)) (dir name : String) (content : α)
    (h : assoc_find fs (dir ++ "/" ++ name) = some content) :
    write_file fs dir name content = (fs, false) := by
  unfold write_file
  dsimp only
  rw [h]
  dsimp only
  rw [if_pos rfl]

theorem write_file_wrote_iff {α : Type} [DecidableEq α]
    (fs : List (String × α)) (dir name : String) (content : α) :
    ((write_file fs dir name content).2 = false
      ↔ assoc_find fs (dir ++ "/" ++ name) = some content) := by
  unfold write_file
  dsimp only
  cases h : assoc_find fs (dir ++ "/" ++ name) with
  | none => simp
  | some existing =>
    dsimp only
    by_cases he : existing = content
    · rw [if_pos he]
      simp [he]
    · rw [if_neg he]
      simp [h]
      intro hc
      exact absurd hc he

theorem str_data_append (a b : String) : (a ++ b).data = a.data ++ b.data := rfl

theorem path_cancel (dir n1 n2 : String) (h : n1 ≠ n2) :
    dir ++ "/" ++ n1 ≠ dir ++ "/" ++ n2 := by
  intro hc
  apply h
  have hd : (dir ++ "/" ++ n1).data = (dir ++ "/" ++ n2).data := by rw [hc]
  rw [str_data_append, str_data_append] at hd
  have := List.append_cancel_left hd
  cases n1 with
  | mk d1 =>
    cases n2 with
    | mk d2 => exact congrArg String.mk this

theorem codegen_module_core_names (m : Module)
    (h : (String × ModuleH)) (c : (String × ModuleCpp))
    (hc : codegen_module_core m = .ok (h, c)) :
    h.1 = module_filename m.header ++ ".h"
      ∧ c.1 = module_filename m.header ++ ".cpp" := by
  unfold codegen_module_core at hc
  split at hc
  · exact Except.noConfusion hc
  · split at hc
    · exact Except.noConfusion hc
    · obtain ⟨hname, hart⟩ := h
      obtain ⟨cname, cart⟩ := c
      injection hc with h1
      simp only [Prod.mk.injEq] at h1
      obtain ⟨⟨e1, _⟩, e2, _⟩ := h1
      exact ⟨e1.symm, e2.symm⟩

theorem parse_module_header (filename : String) (raw m : Module)
    (h : parse_module filename raw = .ok m) : m.header = raw.header := by
  unfold parse_module at h
  split at h
  · exact Except.noConfusion h
  · injection h with h1
    rw [← h1]

theorem parse_stage_headers :
    ∀ (docs : List (String × Module)) (st : ParseSt) (ms : List Module)
      (st' : ParseSt), parse_stage docs st = .ok (ms, st') →
      ms.map Module.header = docs.map (fun d => d.2.header) := by
  intro docs
  induction docs with
  | nil =>
    intro st ms st' h
    unfold parse_stage at h
    injection h with h1
    rw [← (Prod.mk.injEq _ _ _ _).mp h1 |>.1]
    rfl
  | cons d docs ih =>
    intro st ms st' h
    obtain ⟨fn, raw⟩ := d
    unfold parse_stage at h
    cases hpm : parse_module fn raw with
    | error e => rw [hpm] at h; exact Except.noConfusion h
    | ok m =>
      rw [hpm] at h
      dsimp only at h
      cases hpo : parse_stage_options fn m.options st with
      | error e => rw [hpo] at h; exact Except.noConfusion h
      | ok st1 =>
        rw [hpo] at h
        dsimp only at h
        cases hps : parse_stage docs st1 with
        | error e => rw [hps] at h; exact Except.noConfusion h
        | ok pr =>
          rw [hps] at h
          obtain ⟨ms1, st2⟩ := pr
          dsimp only at h
          injection h with h1
          have h2 := (Prod.mk.injEq _ _ _ _).mp h1
          rw [← h2.1]
          simp only [List.map_cons]
          rw [parse_module_header fn raw m hpm, ih st1 ms1 st2 hps]

theorem codegen_module_ok (m : Module) (dst : String) (fs fsA : FSA) (w : Nat)
    (h : codegen_module m dst fs = .ok (fsA, w)) :
    ∃ hart cart, codegen_module_core m = .ok (hart, cart) ∧
      fsA = (write_file (write_file fs dst hart.1 (Artifact.modH hart.2)).1
        dst cart.1 (Artifact.modCpp cart.2)).1 := by
  unfold codegen_module at h
  cases hc : codegen_module_core m with
  | error e => rw [hc] at h; exact Except.noConfusion h
  | ok pr =>
    rw [hc] at h
    obtain ⟨hart, cart⟩ := pr
    dsimp only at h
    injection h with h1
    have h2 := (Prod.mk.injEq _ _ _ _).mp h1
    exact ⟨hart, cart, rfl, h2.1.symm⟩

/-- After a successful module pass, each module's two artifacts sit at their
paths with their rendered contents (provided the artifact names are pairwise
distinct), and every other path is untouched. -/
theorem codegen_modules_post :
    ∀ (ms : List Module) (dst : String) (fs fs1 : FSA) (w : Nat),
      codegen_modules ms dst fs = (fs1, w, none) →
      ((ms.map Module.header).flatMap header_artifact_names).Nodup →
      ((∀ m ∈ ms, ∃ hart cart, codegen_module_core m = .ok (hart, cart) ∧
          assoc_find fs1 (dst ++ "/" ++ hart.1) = some (Artifact.modH hart.2) ∧
          assoc_find fs1 (dst ++ "/" ++ cart.1) = some (Artifact.modCpp cart.2)) ∧
       (∀ p : String,
          (∀ n ∈ (ms.map Module.header).flatMap header_artifact_names,
            p ≠ dst ++ "/" ++ n) →
          assoc_find fs1 p = assoc_find fs p)) := by
  intro ms
  induction ms with
  | nil =>
    intro dst fs fs1 w h _
    unfold codegen_modules at h
    simp only [Prod.mk.injEq] at h
    obtain ⟨e1, _, _⟩ := h
    subst e1
    exact ⟨by simp, fun p _ => rfl⟩
  | cons m ms ih =>
    intro dst fs fs1 w h hnodup
    unfold codegen_modules at h
    cases hcm : codegen_module m dst fs with
    | error e =>
      rw [hcm] at h
      simp only [Prod.mk.injEq] at h
      exact absurd h.2.2 (by simp)
    | ok pr =>
      rw [hcm] at h
      obtain ⟨fsA, wA⟩ := pr
      dsimp only at h
      cases hrest : codegen_modules ms dst fsA with
      | mk fs2 rest2 =>
        obtain ⟨w2, err2⟩ := rest2
        rw [hrest] at h
        simp only [Prod.mk.injEq] at h
        obtain ⟨e1, _, e3⟩ := h
        have hrest1 : codegen_modules ms dst fsA = (fs1, w2, none) := by
          rw [hrest, e1, e3]
        obtain ⟨hart, cart, hcore, hfsA⟩ := codegen_module_ok m dst fs fsA wA hcm
        obtain ⟨hn1, hn2⟩ := codegen_module_core_names m hart cart hcore
        simp only [List.map_cons, List.flatMap_cons] at hnodup
        unfold header_artifact_names at hnodup
        simp only [List.cons_append, List.nil_append] at hnodup
        rw [List.nodup_cons] at hnodup
        obtain ⟨hA, hnodup⟩ := hnodup
        rw [List.nodup_cons] at hnodup
        obtain ⟨hB, hrestnd⟩ := hnodup
        have hAB : module_filename m.header ++ ".h"
            ≠ module_filename m.header ++ ".cpp" :=
          fun e => hA (e ▸ List.mem_cons_self _ _)
        have hAr : module_filename m.header ++ ".h"
            ∉ (ms.map Module.header).flatMap header_artifact_names :=
          fun e => hA (List.mem_cons_of_mem _ e)
        have hpathAB : dst ++ "/" ++ hart.1 ≠ dst ++ "/" ++ cart.1 := by
          rw [hn1, hn2]; exact path_cancel dst _ _ hAB
        have hfA : assoc_find fsA (dst ++ "/" ++ hart.1)
            = some (Artifact.modH hart.2) := by
          rw [hfsA]
          rw [write_file_find_ne _ _ _ _ _ hpathAB]
          exact write_file_find _ _ _ _
        have hfC : assoc_find fsA (dst ++ "/" ++ cart.1)
            = some (Artifact.modCpp cart.2) := by
          rw [hfsA]
          exact write_file_find _ _ _ _
        obtain ⟨ihfacts, ihframe⟩ := ih dst fsA fs1 w2 hrest1 hrestnd
        have hAav : ∀ n ∈ (ms.map Module.header).flatMap header_artifact_names,
            dst ++ "/" ++ hart.1 ≠ dst ++ "/" ++ n := by
          intro n hn
          rw [hn1]
          exact path_cancel dst _ _ (fun e => hAr (e ▸ hn))
        have hCav : ∀ n ∈ (ms.map Module.header).flatMap header_artifact_names,
            dst ++ "/" ++ cart.1 ≠ dst ++ "/" ++ n := by
          intro n hn
          rw [hn2]
          exact path_cancel dst _ _ (fun e => hB (e ▸ hn))
        refine ⟨?_, ?_⟩
        · intro m' hm'
          cases List.mem_cons.mp hm' with
          | inl he =>
            subst he
            exact ⟨hart, cart, hcore, by rw [ihframe _ hAav]; exact hfA,
              by rw [ihframe _ hCav]; exact hfC⟩
          | inr hmem => exact ihfacts m' hmem
        · intro p hp
          simp only [List.map_cons, List.flatMap_cons] at hp
          unfold header_artifact_names at hp
          simp only [List.cons_append, List.nil_append, List.mem_cons] at hp
          have hp1 : p ≠ dst ++ "/" ++ hart.1 := by
            rw [hn1]; exact hp _ (Or.inl rfl)
          have hp2 : p ≠ dst ++ "/" ++ cart.1 := by
            rw [hn2]; exact hp _ (Or.inr (Or.inl rfl))
          have hprest : ∀ n ∈ (ms.map Module.header).flatMap header_artifact_names,
              p ≠ dst ++ "/" ++ n := by
            intro n hn
            exact hp n (Or.inr (Or.inr hn))
          rw [ihframe p hprest, hfsA,
            write_file_find_ne _ _ _ _ _ hp2, write_file_find_ne _ _ _ _ _ hp1]

/-- When every module's artifacts are already present with their rendered
contents, the module pass performs zero writes and leaves the directory
unchanged. -/
theorem codegen_modules_noop :
    ∀ (ms : List Module) (dst : String) (fsX : FSA),
      (∀ m ∈ ms, ∃ hart cart, codegen_module_core m = .ok (hart, cart) ∧
          assoc_find fsX (dst ++ "/" ++ hart.1) = some (Artifact.modH hart.2) ∧
          assoc_find fsX (dst ++ "/" ++ cart.1) = some (Artifact.modCpp cart.2)) →
      codegen_modules ms dst fsX = (fsX, 0, none) := by
  intro ms
  induction ms with
  | nil => intro dst fsX _; rfl
  | cons m ms ih =>
    intro dst fsX hfacts
    obtain ⟨hart, cart, hcore, f1, f2⟩ := hfacts m (List.mem_cons_self m ms)
    unfold codegen_modules codegen_module
    rw [hcore]
    dsimp only
    rw [write_file_noop _ _ _ _ f1]
    dsimp only
    rw [write_file_noop _ _ _ _ f2]
    dsimp only
    rw [ih dst fsX (fun m' hm' => hfacts m' (List.mem_cons_of_mem m hm'))]
    rfl

theorem codegen_all_ok (ms : List Module) (dst : String) (fsB fs2 : FSA)
    (w2 : Nat) (h : codegen_all_modules ms dst fsB = .ok (fs2, w2)) :
    ∃ st, global_state ms = .ok st ∧
      fs2 = (write_file
        (write_file fsB dst "options_holder.h"
          (Artifact.holder st.headers_module st.macros_module)).1
        dst "options.cpp"
        (Artifact.optsCpp st g_getopt_long_start
          (g_getopt_long_start + st.getopt_long.length))).1 := by
  unfold codegen_all_modules at h
  cases hg : global_state ms with
  | error e => rw [hg] at h; exact Except.noConfusion h
  | ok st =>
    rw [hg] at h
    dsimp only at h
    injection h with h1
    have h2 := (Prod.mk.injEq _ _ _ _).mp h1
    exact ⟨st, rfl, h2.1.symm⟩

theorem codegen_all_noop (ms : List Module) (dst : String) (fsX : FSA)
    (st : GState) (hg : global_state ms = .ok st)
    (h1 : assoc_find fsX (dst ++ "/" ++ "options_holder.h")
      = some (Artifact.holder st.headers_module st.macros_module))
    (h2 : assoc_find fsX (dst ++ "/" ++ "options.cpp")
      = some (Artifact.optsCpp st g_getopt_long_start
          (g_getopt_long_start + st.getopt_long.length))) :
    codegen_all_modules ms dst fsX = .ok (fsX, 0) := by
  unfold codegen_all_modules
  rw [hg]
  dsimp only
  rw [write_file_noop _ _ _ _ h1]
  dsimp only
  rw [write_file_noop _ _ _ _ h2]
  rfl

/-! ## Claim theorems -/

/-- Claim C1, counterexample: the claim says a duplicate module identifier, a
duplicate short spelling, a duplicate smt name or a duplicate display name
each cause the run to fail.  Here is a full run over two documents whose
modules share the module id `arith` and whose options share the display name
`optA`, the short spelling `x` and the smt name `sname` — and the run
completes with no failure. -/
theorem claim_C1_counterexample :
    (run_pipeline dupOtherDocs "dst" []).2.2 = none := by decide

/-- Claim C1, amended: uniqueness is enforced only in the long-spelling
namespace.  Inserting a long-spelling base name that is already in the long
cache makes the run fail (with an `UnboundLocalError` escaping from `perr`,
see C5), as the concrete duplicate-long run confirms; duplicates among
module identifiers, short spellings, smt names and display names are not
detected at all (those four caches are declared but never populated) and do
not by themselves cause the run to fail. -/
theorem claim_C1 :
    (∀ filename o s ty cache,
      starts_dashdash s = false → matches_long_re s = true →
      (cache_find cache (long_get_option s)).isSome = true →
      check_long filename o (some s) ty cache
        = .error (PyError.unboundLocal "msg_suffix")) ∧
    (run_pipeline dupLongDocs "dst" []).2.2
        = some (PyError.unboundLocal "msg_suffix") ∧
    (run_pipeline dupOtherDocs "dst" []).2.2 = none := by
  refine ⟨?_, by decide, by decide⟩
  intro filename o s ty cache h1 h2 h3
  obtain ⟨prior, hp⟩ := Option.isSome_iff_exists.mp h3
  simp [check_long, h1, h2, check_unique, hp, perr]

/-- Witness for C1: the reserved spelling `no-foo` of a boolean `foo` is in
the long cache, so a later option declaring long `no-foo` fails. -/
theorem claim_C1_witness :
    starts_dashdash "no-foo" = false ∧ matches_long_re "no-foo" = true ∧
    (cache_find [("foo", "a.toml"), ("no-foo", "a.toml")]
      (long_get_option "no-foo")).isSome = true ∧
    check_long "b.toml" baseOption (some "no-foo") (some "bool")
      [("foo", "a.toml"), ("no-foo", "a.toml")]
      = .error (PyError.unboundLocal "msg_suffix") :=
  ⟨by decide, by decide, by decide,
   claim_C1.1 "b.toml" baseOption "no-foo" (some "bool")
     [("foo", "a.toml"), ("no-foo", "a.toml")] (by decide) (by decide) (by decide)⟩

/-- Claim C4, counterexample: a run over `partialDocs` (first module valid,
second module failing the argument-marker check) aborts, yet the destination
directory already holds the first module's two artifacts — so a validation
failure is NOT always detected before code generation, and partial output is
possible. -/
theorem claim_C4_counterexample :
    (run_pipeline partialDocs "dst" []).2.2
      = some (die "module 'm2': option 'beta=X' with type 'bool' must not have an argument description") ∧
    (run_pipeline partialDocs "dst" []).1.map Prod.fst
      = ["dst/m1.h", "dst/m1.cpp"] :=
  ⟨by decide, by decide⟩

/-- Claim C4, amended: the parse-stage validations do complete before any
artifact is written — a parse failure leaves the destination untouched with
zero writes — and the argument-marker check, which runs inside per-module
code generation, at least precedes the failing module's own two writes.
But it does not precede the writes of earlier modules (see the
counterexample), so there IS a partial-success mode across modules. -/
theorem claim_C4 :
    (∀ docs dst fs e, parse_stage docs ParseSt.init = .error e →
        run_pipeline docs dst fs = (fs, 0, some e)) ∧
    (∀ m ms dst fs e, codegen_module_core m = .error e →
        codegen_modules (m :: ms) dst fs = (fs, 0, some e)) := by
  constructor
  · intro docs dst fs e h
    unfold run_pipeline
    rw [h]
  · intro m ms dst fs e h
    unfold codegen_modules codegen_module
    rw [h]

/-- Witness for C4: a document whose option declares `short` without `long`
fails during parsing with zero writes; a module failing the argument-marker
check writes nothing of its own. -/
theorem claim_C4_witness :
    run_pipeline badParseDocs "dst" []
      = ([], 0, some (die "parse error in a.toml: short option 's' specified but no long optionoption 'optS' ")) ∧
    codegen_modules [⟨"m2", "M2", "options/m2.h", [oBadMarker]⟩] "dst" []
      = ([], 0, some (die "module 'm2': option 'beta=X' with type 'bool' must not have an argument description")) :=
  ⟨claim_C4.1 badParseDocs "dst" [] _ (by decide),
   claim_C4.2 ⟨"m2", "M2", "options/m2.h", [oBadMarker]⟩ [] "dst" [] _ (by decide)⟩

/-- Claim C5: a duplicate long spelling does make the run fail with a
non-zero exit status, but NOT with the formatted single-line diagnostic:
`check_unique` calls `perr` without an option argument, and `perr` then
reads the never-assigned local `msg_suffix`, so the run dies with an
`UnboundLocalError` traceback; the message citing both locations is built
but never printed.  (The code contradicts its own intent: `perr` exists
exactly to print such one-line parse errors.) -/
theorem claim_C5 :
    run_pipeline dupLongDocs "dst" []
      = ([], 0, some (PyError.unboundLocal "msg_suffix")) ∧
    perr "b.toml" "'foo' already defined in 'a.toml'" none
      = PyError.unboundLocal "msg_suffix" :=
  ⟨by decide, by decide⟩

/-- Claim C6, counterexample: the label rendered for short `x` with long
`extra=ARG` is not `-x ARG | --extra=ARG`. -/
theorem claim_C6_counterexample :
    help_format_options (some "x") (some "extra=ARG") ≠ "-x ARG | --extra=ARG" := by
  decide

/-- Claim C6, amended: the label is exactly `--extra=ARG | -x ARG` — the
long form first, then the short form `-x ARG`, joined by " | ". -/
theorem claim_C6 :
    help_format_options (some "x") (some "extra=ARG") = "--extra=ARG | -x ARG" := by
  decide

/-- Claim C7: an invocation with a template directory, an output directory
and exactly ONE specification document (argv length 4) is rejected with
`[error] missing arguments`, although the script's own usage text says
`<toml>+` (one or more); two documents pass the argument check. -/
theorem claim_C7 :
    mkoptions_check_args ["mkoptions.py", "tpl", "dst", "opts.toml"]
      = .error (die "missing arguments") ∧
    mkoptions_check_args ["mkoptions.py", "tpl", "dst", "a.toml", "b.toml"]
      = .ok ("tpl", "dst", ["a.toml", "b.toml"]) :=
  ⟨by decide, by decide⟩

/-- Claim C8, counterexample: with two modules whose header base names
collide (`a/x.h` and `b/x.h` both generate `x.h`/`x.cpp`), the first run
succeeds, but a second run over the unchanged input performs writes again
(the two modules keep overwriting each other's artifacts), refuting
"zero file writes on the second run" for arbitrary input. -/
theorem claim_C8_counterexample :
    (run_pipeline collideDocs "dst" []).2.2 = none ∧
    (run_pipeline collideDocs "dst" (run_pipeline collideDocs "dst" []).1).2.1 ≠ 0 :=
  ⟨by decide, by decide⟩

/-- Claim C10, counterexample: "skipped entirely, never make generation
fail" is false for an option with neither a display name nor a truthy long
spelling.  Its Python sort key is `None`; placed beside any other option,
the `sorted` call of lines 446-447 compares the `None` key and raises
`TypeError`, so generating the module fails — while generating its
named-options restriction succeeds. -/
theorem claim_C10_counterexample :
    codegen_module_core mCrash = .error PyError.typeError ∧
    (codegen_module_core (filterNamed mCrash)).toBool = true :=
  ⟨by decide, by decide⟩

/-- Claim C10, amended: provided every option of the module has a sort key
(a truthy long spelling or a display name), per-module emission skips every
option whose display name is absent, entirely — generating for the module
exactly what it generates for the module restricted to its named options
(same holder fields, declarations, accessors, was-set queries, mode enums,
and the same argument-marker checking).  In particular a nameless option
violating the argument-marker rule does not make `codegen_module` fail
(`toBool` is `true` on success), while the same option with a display name
does.  But an option with neither a display name nor a truthy long spelling
has sort key `None`: beside any other option, the sort itself raises
`TypeError` and the module's generation fails rather than skipping it. -/
theorem claim_C10 :
    (∀ m : Module, (∀ o ∈ m.options, (py_sort_key o).isSome) →
      codegen_module_core m = codegen_module_core (filterNamed m)) ∧
    (codegen_module_core mNameless).toBool = true ∧
    (codegen_module_core mNamelessNamed).toBool = false ∧
    codegen_module_core mCrash = .error PyError.typeError := by
  refine ⟨?_, by decide, by decide, by decide⟩
  intro m hkeys
  unfold codegen_module_core
  have hid : (filterNamed m).id = m.id := rfl
  have hh : (filterNamed m).header = m.header := rfl
  have hk2 : ∀ o ∈ (filterNamed m).options, (py_sort_key o).isSome := by
    intro o ho
    exact hkeys o (List.mem_of_mem_filter ho)
  rw [hid, hh, py_sorted_all_some m.options hkeys,
    py_sorted_all_some (filterNamed m).options hk2]
  dsimp only
  have h1 : List.insertionSort opt_le (filterNamed m).options
      = (List.insertionSort opt_le m.options).filter (fun o => o.name.isSome) := by
    exact insertionSort_filter _ m.options
  rw [h1, ← codegen_options_core_filter]

/-- Witness for claim C10: a module pairing a keyed nameless option with an
ordinary one satisfies the hypothesis, and its generation equals that of
its named restriction. -/
theorem claim_C10_witness :
    (∀ o ∈ mSkipOk.options, (py_sort_key o).isSome) ∧
    codegen_module_core mSkipOk = codegen_module_core (filterNamed mSkipOk) :=
  ⟨by decide, claim_C10.1 mSkipOk (by decide)⟩

/-- Claim C2: the generator is deterministic.  Both passes traverse each
module's options sorted ascending by long-spelling-or-name (`sorted_options`
is sorted and a permutation of the declaration order); consequently two
inputs equal up to the declaration order of options (with distinct keys)
yield identical per-module artifacts and identical aggregate artifacts.  In
particular the module declaring `foo` before `bar` generates exactly what
the module declaring `bar` before `foo` generates, and in the emitted
declarations `bar` precedes `foo`. -/
theorem claim_C2 :
    (∀ m : Module, (sorted_options m).Sorted opt_le ∧
       (sorted_options m).Perm m.options) ∧
    (∀ ms1 ms2 dst fs, List.Forall₂ ModulePermEq ms1 ms2 →
       codegen_modules ms1 dst fs = codegen_modules ms2 dst fs ∧
       codegen_all_modules ms1 dst fs = codegen_all_modules ms2 dst fs) ∧
    codegen_module_core mFooBar = codegen_module_core mBarFoo ∧
    ((codegen_module_core mBarFoo).toOption.map (fun p => p.1.2.decls))
      = some [Tpl.optionStruct "optBar" "bool" "bar",
              Tpl.optionStruct "optFoo" "bool" "foo"] := by
  have h3 : codegen_module_core mFooBar = codegen_module_core mBarFoo := by decide
  have h4 : ((codegen_module_core mBarFoo).toOption.map (fun p => p.1.2.decls))
      = some [Tpl.optionStruct "optBar" "bool" "bar",
              Tpl.optionStruct "optFoo" "bool" "foo"] := by decide
  refine ⟨?_, ?_, h3, h4⟩
  · intro m
    exact ⟨List.sorted_insertionSort opt_le m.options,
      List.perm_insertionSort opt_le m.options⟩
  · intro ms1 ms2 dst fs hf
    exact ⟨codegen_modules_perm hf dst fs, codegen_all_modules_perm hf dst fs⟩

/-- Witness for C2: the two declaration orders of the `foo`/`bar` module are
related by `ModulePermEq`, and both passes produce identical results on
them. -/
theorem claim_C2_witness :
    List.Forall₂ ModulePermEq [mFooBar] [mBarFoo] ∧
    codegen_modules [mFooBar] "dst" [] = codegen_modules [mBarFoo] "dst" [] ∧
    codegen_all_modules [mFooBar] "dst" [] = codegen_all_modules [mBarFoo] "dst" [] := by
  have hf : List.Forall₂ ModulePermEq [mFooBar] [mBarFoo] := by
    refine List.Forall₂.cons ⟨rfl, rfl, rfl, ?_, by decide⟩ List.Forall₂.nil
    exact List.Perm.swap oBar oFoo []
  exact ⟨hf, (claim_C2.2.1 [mFooBar] [mBarFoo] "dst" [] hf).1,
    (claim_C2.2.1 [mFooBar] [mBarFoo] "dst" [] hf).2⟩

/-- Claim C3: in every successful run, the command-line dispatch IDs form
the contiguous ascending range starting at the fixed base 256, with no gaps
and no reuse (the table's values are exactly `range' 256 n`); one entry is
consumed per option with a long spelling plus one more per alternate-enabled
boolean with a long spelling, and the entries' names list the long spellings
in traversal order (modules in order, options sorted), with the negated
`no-` spelling right after its boolean's. -/
theorem claim_C3 :
    ∀ (ms : List Module) (st : GState), global_state ms = .ok st →
      st.getopt_long.map GetoptEntry.value
          = List.range' g_getopt_long_start st.getopt_long.length ∧
      st.getopt_long.length
          = (ms.map (fun m => (m.options.map consumed).sum)).sum ∧
      st.getopt_long.map GetoptEntry.long
          = ms.flatMap (fun m => (sorted_options m).flatMap expected_longs) := by
  intro ms st h
  have init : GState.init.getopt_long.map GetoptEntry.value
      = List.range' g_getopt_long_start GState.init.getopt_long.length := rfl
  obtain ⟨hv, hl, hlong⟩ := process_modules_getopt ms GState.init st h init
  refine ⟨hv, ?_, by simpa using hlong⟩
  have hsums : (fun m : Module => ((sorted_options m).map consumed).sum)
      = (fun m : Module => (m.options.map consumed).sum) := by
    funext m
    exact ((List.perm_insertionSort opt_le m.options).map consumed).sum_eq
  rw [hl, hsums]
  simp [GState.init]

/-- Witness for C3: the three-option module `mIds` (two alternating booleans
plus one argument-taking option) yields IDs 256..260. -/
theorem claim_C3_witness :
    ∃ st, global_state [mIds] = .ok st ∧
      (st.getopt_long.map GetoptEntry.value
          = List.range' g_getopt_long_start st.getopt_long.length ∧
       st.getopt_long.length
          = ([mIds].map (fun m => (m.options.map consumed).sum)).sum ∧
       st.getopt_long.map GetoptEntry.long
          = [mIds].flatMap (fun m => (sorted_options m).flatMap expected_longs)) :=
  ⟨_, rfl, claim_C3 [mIds] _ rfl⟩

/-- Claim C9: for every boolean option with a long spelling, `check_long`
inserts the negated `no-` base spelling into the global long-spelling cache
unconditionally — the option's `alternate` flag (arbitrary here, in
particular `false`) plays no role — so a later option declaring that `no-`
spelling fails; yet when `alternate` is false, no dispatch entry and no ID
is generated for the negation: `po_alternate` is the identity, the option
consumes exactly one ID (its own long spelling only). -/
theorem claim_C9 :
    (∀ (filename : String) (o : MkOption) (s : String) (cache : Cache),
      starts_dashdash s = false → matches_long_re s = true →
      cache_find cache (long_get_option s) = none →
      cache_find (cache ++ [(long_get_option s, filename)])
        ("no-" ++ long_get_option s) = none →
      check_long filename o (some s) (some "bool") cache
        = .ok ((cache ++ [(long_get_option s, filename)])
            ++ [("no-" ++ long_get_option s, filename)])) ∧
    (∀ (filename : String) (o : MkOption) (s : String) (ty : Option String)
       (cache : Cache),
      starts_dashdash s = false → matches_long_re s = true →
      (cache_find cache (long_get_option s)).isSome = true →
      check_long filename o (some s) ty cache
        = .error (PyError.unboundLocal "msg_suffix")) ∧
    (∀ (o : MkOption) (st : GState), o.alternate = false →
      po_alternate o (argument_req o) st = st) ∧
    (∀ (o : MkOption) (st : GState),
      o.type = "bool" → tr o.long = true → o.alternate = false →
      ∃ st', process_option o st = .ok st' ∧
        st'.getopt_long = st.getopt_long
          ++ [⟨long_get_option (o.long.getD ""), false,
               g_getopt_long_start + st.getopt_long.length⟩] ∧
        consumed o = 1 ∧
        expected_longs o = [long_get_option (o.long.getD "")]) := by
  refine ⟨?_, ?_, ?_, ?_⟩
  · intro filename o s cache h1 h2 h3 h4
    simp [check_long, h1, h2, check_unique, h3, h4]
  · intro filename o s ty cache h1 h2 h3
    obtain ⟨prior, hp⟩ := Option.isSome_iff_exists.mp h3
    simp [check_long, h1, h2, check_unique, hp, perr]
  · intro o st halt
    unfold po_alternate
    simp [halt]
  · intro o st hb hl halt
    have hvoid : (o.type == "void" && o.name.isSome) = false := by simp [hb]
    have hsome : (!(tr o.name || tr o.smt_name || tr o.short || tr o.long))
        = false := by simp [hl]
    have hgp : ∃ preds, gen_predicates o = .ok preds := by
      unfold gen_predicates
      cases hp : o.predicates.isEmpty
      · simp [hp, hb]
      · simp [hp]
    obtain ⟨preds, hgp⟩ := hgp
    cases hpo : process_option o st with
    | error e =>
      exfalso
      unfold process_option at hpo
      simp only [hvoid, hsome, Bool.false_eq_true, if_false] at hpo
      rw [hgp] at hpo
      exact Except.noConfusion hpo
    | ok st' =>
      refine ⟨st', rfl, ?_, ?_, ?_⟩
      · rw [process_option_getopt o st st' hpo]
        unfold getopt_step add_getopt_long
        simp [hl, halt, argument_req, hb]
      · unfold consumed
        simp [hl, halt]
      · unfold expected_longs
        simp [hl, halt]

/-- Witness for C9: the alternate-disabled boolean `zeta` still reserves
`no-zeta` in the cache, while its dispatch consumes a single ID. -/
theorem claim_C9_witness :
    check_long "a.toml" baseOption (some "zeta") (some "bool") []
      = .ok [("zeta", "a.toml"), ("no-zeta", "a.toml")] ∧
    (∃ st', process_option oNoAlt GState.init = .ok st' ∧
      st'.getopt_long = GState.init.getopt_long
        ++ [⟨long_get_option (oNoAlt.long.getD ""), false,
             g_getopt_long_start + GState.init.getopt_long.length⟩] ∧
      consumed oNoAlt = 1 ∧
      expected_longs oNoAlt = [long_get_option (oNoAlt.long.getD "")]) :=
  ⟨claim_C9.1 "a.toml" baseOption "zeta" [] (by decide) (by decide) (by decide)
      (by decide),
   claim_C9.2.2.2 oNoAlt GState.init rfl (by decide) rfl⟩

/-- Claim C8, amended: `write_file` renders fully in memory, compares
against the existing file and rewrites only on difference (first
conjunct, at the source's string/byte level: after a write the destination
holds the content; a write is skipped exactly when the destination already
held the content; an immediate second write of the same content is a
no-op).  Consequently a second full run over unchanged input performs zero
writes and leaves the directory identical — provided the run's artifact
file names are pairwise distinct; with colliding names (two modules with
the same header base name) artifacts overwrite each other and the second
run writes again (see the counterexample). -/
theorem claim_C8 :
    (∀ (fs : List (String × String)) (dir name content : String),
      assoc_find (write_file fs dir name content).1 (dir ++ "/" ++ name)
          = some content ∧
      ((write_file fs dir name content).2 = false
          ↔ assoc_find fs (dir ++ "/" ++ name) = some content) ∧
      write_file (write_file fs dir name content).1 dir name content
          = ((write_file fs dir name content).1, false)) ∧
    (∀ (docs : List (String × Module)) (dst : String) (fs : FSA),
      (run_pipeline docs dst fs).2.2 = none →
      (artifact_names docs).Nodup →
      run_pipeline docs dst (run_pipeline docs dst fs).1
        = ((run_pipeline docs dst fs).1, 0, none)) := by
  constructor
  · intro fs dir name content
    exact ⟨write_file_find fs dir name content,
      write_file_wrote_iff fs dir name content,
      write_file_noop _ dir name content (write_file_find fs dir name content)⟩
  · intro docs dst fs hsucc hnodup
    cases hps : parse_stage docs ParseSt.init with
    | error e =>
      exfalso
      unfold run_pipeline at hsucc
      rw [hps] at hsucc
      simp at hsucc
    | ok pr =>
      obtain ⟨modules, stp⟩ := pr
      cases hcm : codegen_modules modules dst fs with
      | mk fsA rest =>
        obtain ⟨wA, errA⟩ := rest
        cases errA with
        | some e =>
          exfalso
          unfold run_pipeline at hsucc
          rw [hps] at hsucc
          dsimp only at hsucc
          rw [hcm] at hsucc
          simp at hsucc
        | none =>
          cases hall : codegen_all_modules modules dst fsA with
          | error e =>
            exfalso
            unfold run_pipeline at hsucc
            rw [hps] at hsucc
            dsimp only at hsucc
            rw [hcm] at hsucc
            dsimp only at hsucc
            rw [hall] at hsucc
            simp at hsucc
          | ok pr2 =>
            obtain ⟨fsB, wB⟩ := pr2
            have hr1 : run_pipeline docs dst fs = (fsB, wA + wB, none) := by
              unfold run_pipeline
              rw [hps]
              dsimp only
              rw [hcm]
              dsimp only
              rw [hall]
            rw [hr1]
            dsimp only
            have hheaders := parse_stage_headers docs ParseSt.init modules stp hps
            have hmn : (modules.map Module.header).flatMap header_artifact_names
                = (docs.map (fun d => d.2.header)).flatMap header_artifact_names := by
              rw [hheaders]
            unfold artifact_names at hnodup
            rw [← hmn] at hnodup
            rw [List.nodup_append] at hnodup
            obtain ⟨hnodupMods, hnodupGlob, hdisj⟩ := hnodup
            obtain ⟨mfacts, _⟩ :=
              codegen_modules_post modules dst fs fsA wA hcm hnodupMods
            obtain ⟨st, hg, hfsB⟩ := codegen_all_ok modules dst fsA fsB wB hall
            have hHO : ("options_holder.h" : String) ≠ "options.cpp" := by decide
            have hpathHO : dst ++ "/" ++ "options_holder.h"
                ≠ dst ++ "/" ++ "options.cpp" := path_cancel dst _ _ hHO
            have hHolderB : assoc_find fsB (dst ++ "/" ++ "options_holder.h")
                = some (Artifact.holder st.headers_module st.macros_module) := by
              rw [hfsB]
              rw [write_file_find_ne _ _ _ _ _ hpathHO]
              exact write_file_find _ _ _ _
            have hOptsB : assoc_find fsB (dst ++ "/" ++ "options.cpp")
                = some (Artifact.optsCpp st g_getopt_long_start
                    (g_getopt_long_start + st.getopt_long.length)) := by
              rw [hfsB]
              exact write_file_find _ _ _ _
            have mfactsB : ∀ m ∈ modules,
                ∃ hart cart, codegen_module_core m = .ok (hart, cart) ∧
                  assoc_find fsB (dst ++ "/" ++ hart.1)
                    = some (Artifact.modH hart.2) ∧
                  assoc_find fsB (dst ++ "/" ++ cart.1)
                    = some (Artifact.modCpp cart.2) := by
              intro m hm
              obtain ⟨hart, cart, hcore, fA1, fA2⟩ := mfacts m hm
              obtain ⟨hn1, hn2⟩ := codegen_module_core_names m hart cart hcore
              have hmemH : hart.1
                  ∈ (modules.map Module.header).flatMap header_artifact_names := by
                rw [hn1]
                exact List.mem_flatMap.mpr ⟨m.header, List.mem_map_of_mem _ hm,
                  List.mem_cons_self _ _⟩
              have hmemC : cart.1
                  ∈ (modules.map Module.header).flatMap header_artifact_names := by
                rw [hn2]
                exact List.mem_flatMap.mpr ⟨m.header, List.mem_map_of_mem _ hm,
                  List.mem_cons_of_mem _ (List.mem_cons_self _ _)⟩
              have hHne : ∀ x, x
                  ∈ (modules.map Module.header).flatMap header_artifact_names →
                  x ≠ "options_holder.h" ∧ x ≠ "options.cpp" := by
                intro x hx
                have hnot := hdisj hx
                constructor
                · intro hc
                  exact hnot (hc ▸ List.mem_cons_self _ _)
                · intro hc
                  exact hnot (hc ▸ List.mem_cons_of_mem _ (List.mem_cons_self _ _))
              obtain ⟨hH1, hH2⟩ := hHne hart.1 hmemH
              obtain ⟨hC1, hC2⟩ := hHne cart.1 hmemC
              refine ⟨hart, cart, hcore, ?_, ?_⟩
              · rw [hfsB,
                  write_file_find_ne _ _ _ _ _ (path_cancel dst _ _ hH2),
                  write_file_find_ne _ _ _ _ _ (path_cancel dst _ _ hH1)]
                exact fA1
              · rw [hfsB,
                  write_file_find_ne _ _ _ _ _ (path_cancel dst _ _ hC2),
                  write_file_find_ne _ _ _ _ _ (path_cancel dst _ _ hC1)]
                exact fA2
            unfold run_pipeline
            rw [hps]
            dsimp only
            rw [codegen_modules_noop modules dst fsB mfactsB]
            dsimp only
            rw [codegen_all_noop modules dst fsB st hg hHolderB hOptsB]

/-- Witness for C8: over `okDocs` (distinct header base names) the first
run succeeds and the second run performs zero writes and leaves the
directory untouched. -/
theorem claim_C8_witness :
    (run_pipeline okDocs "dst" []).2.2 = none ∧
    (artifact_names okDocs).Nodup ∧
    run_pipeline okDocs "dst" (run_pipeline okDocs "dst" []).1
      = ((run_pipeline okDocs "dst" []).1, 0, none) :=
  ⟨by decide, by decide,
   claim_C8.2 okDocs "dst" [] (by decide) (by decide)⟩

end Mkopt
